import Mathlib

/-!
# Visitor pattern over shapes: embedding and verification

A shallow embedding of the C++ sources (`shape`, `circle`, `square`, `shape_visitor`,
`bounding_box_calculator`, `total_area_accumulator`, `shape_printer`, `main`).

## Arithmetic

The C++ type `float` is taken to be IEEE-754 binary32 and `double` to be binary64, both with
round-to-nearest, ties-to-even, every operation rounded once to the type of its operands after the
usual arithmetic conversions (`FLT_EVAL_METHOD == 0`, no contraction into fused operations).

A value is `nan`, a signed infinity, or a finite rational.  The two zeros are identified: they
compare equal and no arithmetic operation of this program tells them apart.  Finite results are
obtained by exact rational arithmetic followed by one rounding (`roundTo`).
-/

namespace VisitorPattern

/-! ## Binary floating point -/

/-- Bit length minus one of `n`, by halving at most `fuel` times. -/
def log2Fuel : ℕ → ℕ → ℕ
  | 0, _ => 0
  | fuel + 1, n => if n < 2 then 0 else log2Fuel fuel (n / 2) + 1

/-- Floor of the base-two logarithm of a natural number (`0` for `0`). -/
def natLog2 (n : ℕ) : ℕ := log2Fuel n n

/-- Floor of the base-two logarithm of `|q|` for a non-zero rational `q`. -/
def ilog2 (q : ℚ) : ℤ :=
  let a := q.num.natAbs
  let b := q.den
  let k : ℤ := (natLog2 a : ℤ) - (natLog2 b : ℤ)
  if b * 2 ^ k.toNat ≤ a * 2 ^ (-k).toNat then k else k - 1

/-- Nearest integer, ties to the even one. -/
def roundHalfEven (x : ℚ) : ℤ :=
  let f := ⌊x⌋
  let d := x - f
  if d < 1 / 2 then f else if 1 / 2 < d then f + 1 else if f % 2 = 0 then f else f + 1

/-- A floating-point datum: not-a-number, an infinity (`neg = true` for `-inf`), or a finite
value. -/
inductive FP where
  | nan
  | inf (neg : Bool)
  | fin (q : ℚ)
deriving DecidableEq

/-- Round an exact value to the binary format with `p` significant bits and exponent range
`emin .. emax` (round to nearest, ties to even; gradual underflow; overflow to infinity). -/
def roundTo (p : ℕ) (emin emax : ℤ) (q : ℚ) : FP :=
  if q = 0 then .fin 0 else
  let e := max (ilog2 q) emin
  let u : ℚ := 2 ^ (e - p + 1)
  let r := (roundHalfEven (q / u) : ℚ) * u
  if 2 ^ (emax + 1) ≤ |r| then .inf (decide (q < 0)) else .fin r

/-- The rounding of `roundTo` before its overflow test: `q` rounded to a multiple of the quantum
of its binade, with no bound on the exponent. -/
def roundUnbounded (p : ℕ) (emin : ℤ) (q : ℚ) : ℚ :=
  (roundHalfEven (q / 2 ^ (max (ilog2 q) emin - p + 1)) : ℚ) * 2 ^ (max (ilog2 q) emin - p + 1)

/-- Rounding to binary32 (`float`). -/
def round32 : ℚ → FP := roundTo 24 (-126) 127

/-- Rounding to binary64 (`double`). -/
def round64 : ℚ → FP := roundTo 53 (-1022) 1023

namespace FP

/-- IEEE addition, the exact finite sum rounded by `rnd`. -/
def add (rnd : ℚ → FP) : FP → FP → FP
  | .fin a, .fin b => rnd (a + b)
  | .fin _, .inf s => .inf s
  | .inf s, .fin _ => .inf s
  | .inf s, .inf t => if s = t then .inf s else .nan
  | _, _ => .nan

/-- IEEE negation (exact). -/
def neg : FP → FP
  | .fin a => .fin (-a)
  | .inf s => .inf (!s)
  | .nan => .nan

/-- IEEE subtraction: `a - b` is `a + (-b)`. -/
def sub (rnd : ℚ → FP) (a b : FP) : FP := add rnd a (neg b)

/-- IEEE multiplication, the exact finite product rounded by `rnd`. -/
def mul (rnd : ℚ → FP) : FP → FP → FP
  | .fin a, .fin b => rnd (a * b)
  | .fin a, .inf s => if a = 0 then .nan else .inf (decide (a < 0) != s)
  | .inf s, .fin b => if b = 0 then .nan else .inf (s != decide (b < 0))
  | .inf s, .inf t => .inf (s != t)
  | _, _ => .nan

/-- IEEE division, the exact finite quotient rounded by `rnd`.  The sign of a zero is not
tracked, so a zero divisor is treated as `+0`; the program only ever divides by the literal
`2.f`. -/
def div (rnd : ℚ → FP) : FP → FP → FP
  | .fin a, .fin b =>
      if b = 0 then (if a = 0 then .nan else .inf (decide (a < 0))) else rnd (a / b)
  | .fin _, .inf _ => .fin 0
  | .inf s, .fin b => .inf (s != decide (b < 0))
  | _, _ => .nan

/-- The comparison `a < b` of C++ on floating-point operands: false as soon as one is `nan`. -/
def lt : FP → FP → Bool
  | .fin a, .fin b => decide (a < b)
  | .inf true, .fin _ => true
  | .inf true, .inf false => true
  | .fin _, .inf false => true
  | _, _ => false

/-- The comparison `a <= b` of C++ on floating-point operands: false as soon as one is `nan`. -/
def le : FP → FP → Bool
  | .fin a, .fin b => decide (a ≤ b)
  | .inf true, .fin _ => true
  | .inf true, .inf _ => true
  | .fin _, .inf false => true
  | .inf false, .inf false => true
  | _, _ => false

/-- Narrowing conversion to `float`, as performed by an assignment to a `float` object. -/
def toFloat : FP → FP
  | .fin a => round32 a
  | v => v

/-- Whether a value is a `float`, that is, survives the narrowing conversion unchanged. -/
def isFloat (v : FP) : Bool := decide (toFloat v = v)

/-- Whether a value is not `nan`. -/
def isNum : FP → Bool
  | .nan => false
  | _ => true

/-- Whether a value is finite. -/
def isFinite : FP → Bool
  | .fin _ => true
  | _ => false

end FP

/-- The value `v` is finite and at most `tol` away from the real number `target`. -/
def FP.within (v : FP) (target tol : ℝ) : Prop :=
  ∃ q : ℚ, v = .fin q ∧ |(q : ℝ) - target| ≤ tol

/-- The call `std::max(a, b)` of `<algorithm>`: `(a < b) ? b : a`. -/
def stdMax (a b : FP) : FP := if FP.lt a b then b else a

/-- The call `std::min(a, b)` of `<algorithm>`: `(b < a) ? b : a`. -/
def stdMin (a b : FP) : FP := if FP.lt b a then b else a

/-- Operator `+` on two `float` operands. -/
def add32 : FP → FP → FP := FP.add round32

/-- Operator `-` on two `float` operands. -/
def sub32 : FP → FP → FP := FP.sub round32

/-- Operator `*` on two `float` operands. -/
def mul32 : FP → FP → FP := FP.mul round32

/-- Operator `/` on two `float` operands. -/
def div32 : FP → FP → FP := FP.div round32

/-- Operator `+` on two `double` operands. -/
def add64 : FP → FP → FP := FP.add round64

/-- Operator `*` on two `double` operands. -/
def mul64 : FP → FP → FP := FP.mul round64

/-- The macro `M_PI` of `<cmath>`: the `double` literal `3.14159265358979323846`. -/
def M_PI : FP := round64 (314159265358979323846 / 10 ^ 20)

/-- The `float` literal `2.f`. -/
def two : FP := .fin 2

/-! ## Shapes (`shape.hpp`, `circle.hpp`, `square.hpp`) -/

/-- Data of the abstract base class `Shape`: the two `const float` members. -/
structure Shape where
  x : FP
  y : FP
deriving DecidableEq

/-- The protected constructor `Shape::Shape(float x, float y)`. -/
def Shape.ctor (x y : FP) : Shape := { x := x, y := y }

/-- Accessor `Shape::getX`. -/
def Shape.getX (s : Shape) : FP := s.x

/-- Accessor `Shape::getY`. -/
def Shape.getY (s : Shape) : FP := s.y

/-- Class `Circle`: a `Shape` with a `const float radius`. -/
structure Circle extends Shape where
  radius : FP
deriving DecidableEq

/-- The constructor `Circle::Circle(float x, float y, float radius)`. -/
def Circle.ctor (x y radius : FP) : Circle := { toShape := Shape.ctor x y, radius := radius }

/-- Inherited accessor `getX` on a `Circle`. -/
def Circle.getX (c : Circle) : FP := c.toShape.getX

/-- Inherited accessor `getY` on a `Circle`. -/
def Circle.getY (c : Circle) : FP := c.toShape.getY

/-- Accessor `Circle::getRadius`. -/
def Circle.getRadius (c : Circle) : FP := c.radius

/-- Class `Square`: a `Shape` with `const float width` and `const float height`. -/
structure Square extends Shape where
  width : FP
  height : FP
deriving DecidableEq

/-- The constructor `Square::Square(float x, float y, float width, float height)`. -/
def Square.ctor (x y width height : FP) : Square :=
  { toShape := Shape.ctor x y, width := width, height := height }

/-- Inherited accessor `getX` on a `Square`. -/
def Square.getX (s : Square) : FP := s.toShape.getX

/-- Inherited accessor `getY` on a `Square`. -/
def Square.getY (s : Square) : FP := s.toShape.getY

/-- Accessor `Square::getHeight`. -/
def Square.getHeight (s : Square) : FP := s.height

/-- Accessor `Square::getWidth`. -/
def Square.getWidth (s : Square) : FP := s.width

/-! ## The visitor interface (`shape_visitor.hpp`) and `accept` -/

/-- The abstract class `ShapeVisitor`: one handler per overload of the pure virtual `visitShape`.
A handler is a `void` member function, so it maps the state `σ` it may touch (the visitor's own
members, or the output stream) to the state it leaves behind. -/
structure ShapeVisitor (σ : Type) where
  visitShapeCircle : Circle → σ → σ
  visitShapeSquare : Square → σ → σ

/-- The override `Circle::accept`: `visitor.visitShape(*this)` with `*this` a `const Circle &`. -/
def Circle.accept {σ : Type} (self : Circle) (visitor : ShapeVisitor σ) : σ → σ :=
  visitor.visitShapeCircle self

/-- The override `Square::accept`: `visitor.visitShape(*this)` with `*this` a `const Square &`. -/
def Square.accept {σ : Type} (self : Square) (visitor : ShapeVisitor σ) : σ → σ :=
  visitor.visitShapeSquare self

/-- An object held through `std::shared_ptr<Shape>`: its dynamic type is one of the two concrete
classes. -/
inductive ShapePtr where
  | circle (c : Circle)
  | square (s : Square)
deriving DecidableEq

/-- The virtual call `shape->accept(visitor)`: the override of the dynamic type runs. -/
def ShapePtr.accept {σ : Type} (shape : ShapePtr) (visitor : ShapeVisitor σ) : σ → σ :=
  match shape with
  | .circle c => c.accept visitor
  | .square s => s.accept visitor

/-! ## `BoundingBoxCalculator` -/

/-- Members of `BoundingBoxCalculator`, in declaration order. -/
structure BoundingBoxCalculator where
  bottom : FP
  left : FP
  right : FP
  top : FP
deriving DecidableEq

namespace BoundingBoxCalculator

/-- The implicit default constructor: the class declares none and the members have no
initialiser, so a new object holds indeterminate values, given here as arguments. -/
def ctor (bottom left right top : FP) : BoundingBoxCalculator :=
  { bottom := bottom, left := left, right := right, top := top }

/-- Accessor `getBottom`. -/
def getBottom (self : BoundingBoxCalculator) : FP := self.bottom

/-- Accessor `getLeft`. -/
def getLeft (self : BoundingBoxCalculator) : FP := self.left

/-- Accessor `getRight`. -/
def getRight (self : BoundingBoxCalculator) : FP := self.right

/-- Accessor `getTop`. -/
def getTop (self : BoundingBoxCalculator) : FP := self.top

/-- The overload `visitShape(const Circle &)`. -/
def visitShapeCircle (self : BoundingBoxCalculator) (circle : Circle) : BoundingBoxCalculator :=
  let x := circle.getX
  let y := circle.getY
  let radius := circle.getRadius
  { bottom := stdMax self.bottom (add32 y radius)
    left := stdMin self.left (sub32 x radius)
    right := stdMax self.right (add32 x radius)
    top := stdMin self.top (sub32 y radius) }

/-- The overload `visitShape(const Square &)`. -/
def visitShapeSquare (self : BoundingBoxCalculator) (square : Square) : BoundingBoxCalculator :=
  let x := square.getX
  let y := square.getY
  let halfWidth := div32 square.getWidth two
  let halfHeight := div32 square.getHeight two
  { bottom := stdMax self.bottom (add32 y halfWidth)
    left := stdMin self.left (sub32 x halfHeight)
    right := stdMax self.right (add32 x halfWidth)
    top := stdMin self.top (sub32 y halfHeight) }

/-- The `ShapeVisitor` sub-object of a `BoundingBoxCalculator`. -/
def visitor : ShapeVisitor VisitorPattern.BoundingBoxCalculator where
  visitShapeCircle := fun circle self => visitShapeCircle self circle
  visitShapeSquare := fun square self => visitShapeSquare self square

/-- The calculator part of the loop of `main` over an arbitrary sequence of shapes:
`shape->accept(calculator)` for each shape in order. -/
def visitAll (self : VisitorPattern.BoundingBoxCalculator) (shapes : List ShapePtr) :
    VisitorPattern.BoundingBoxCalculator :=
  shapes.foldl (fun b shape => shape.accept visitor b) self

/-- The box is well-formed: `getLeft() <= getRight()` and `getTop() <= getBottom()`, with the
comparison `<=` of C++ on `float`. -/
def wellFormed (self : VisitorPattern.BoundingBoxCalculator) : Bool :=
  FP.le self.getLeft self.getRight && FP.le self.getTop self.getBottom

/-- The geometrically expected update for a square, written from its statement and not from the
source: `right = max(right, x + w/2)`, `left = min(left, x - w/2)`,
`bottom = max(bottom, y + h/2)`, `top = min(top, y - h/2)`, in the same `float` arithmetic as
`visitShapeSquare`. -/
def visitShapeSquareExpected (self : VisitorPattern.BoundingBoxCalculator) (square : Square) :
    VisitorPattern.BoundingBoxCalculator :=
  let x := square.getX
  let y := square.getY
  let halfWidth := div32 square.getWidth two
  let halfHeight := div32 square.getHeight two
  { bottom := stdMax self.bottom (add32 y halfHeight)
    left := stdMin self.left (sub32 x halfWidth)
    right := stdMax self.right (add32 x halfWidth)
    top := stdMin self.top (sub32 y halfHeight) }

end BoundingBoxCalculator

/-! ## `TotalAreaAccumulator` -/

/-- Members of `TotalAreaAccumulator`. -/
structure TotalAreaAccumulator where
  totalArea : FP
deriving DecidableEq

namespace TotalAreaAccumulator

/-- The implicit default constructor: the class declares none and `totalArea` has no
initialiser, so a new object holds an indeterminate value, given here as an argument. -/
def ctor (totalArea : FP) : TotalAreaAccumulator := { totalArea := totalArea }

/-- Accessor `getTotalArea`. -/
def getTotalArea (self : TotalAreaAccumulator) : FP := self.totalArea

/-- The overload `visitShape(const Circle &)`: in `totalArea += radius * radius * M_PI` the
product `radius * radius` is a `float`, it is converted to `double` (exactly) and multiplied by
`M_PI`, `totalArea` is converted to `double` (exactly) for the sum, and the sum is narrowed to
`float` by the assignment. -/
def visitShapeCircle (self : TotalAreaAccumulator) (circle : Circle) : TotalAreaAccumulator :=
  let radius := circle.getRadius
  { totalArea := FP.toFloat (add64 self.totalArea (mul64 (mul32 radius radius) M_PI)) }

/-- The overload `visitShape(const Square &)`: `totalArea += width * height` in `float`. -/
def visitShapeSquare (self : TotalAreaAccumulator) (square : Square) : TotalAreaAccumulator :=
  { totalArea := add32 self.totalArea (mul32 square.getWidth square.getHeight) }

/-- The `ShapeVisitor` sub-object of a `TotalAreaAccumulator`. -/
def visitor : ShapeVisitor VisitorPattern.TotalAreaAccumulator where
  visitShapeCircle := fun circle self => visitShapeCircle self circle
  visitShapeSquare := fun square self => visitShapeSquare self square

/-- The accumulator part of the loop of `main` over an arbitrary sequence of shapes:
`shape->accept(accumulator)` for each shape in order. -/
def visitAll (acc : VisitorPattern.TotalAreaAccumulator) (shapes : List ShapePtr) :
    VisitorPattern.TotalAreaAccumulator :=
  shapes.foldl (fun a shape => shape.accept visitor a) acc

end TotalAreaAccumulator

/-! ## `ShapePrinter` -/

namespace ShapePrinter

/-- The overload `visitShape(const Circle &)`.  The class has no member; the handler appends to
`std::cout`, whose content is the state.  `render` is the stream's insertion of a `float`. -/
def visitShapeCircle (render : FP → String) (circle : Circle) (cout : String) : String :=
  cout ++ "Circle "
    ++ "\x7b x: " ++ render circle.getX
    ++ ", y: " ++ render circle.getY
    ++ ", radius: " ++ render circle.getRadius
    ++ " \x7d " ++ "\n"

/-- The overload `visitShape(const Square &)`. -/
def visitShapeSquare (render : FP → String) (square : Square) (cout : String) : String :=
  cout ++ "Square "
    ++ "\x7b x: " ++ render square.getX
    ++ ", y: " ++ render square.getY
    ++ ", width: " ++ render square.getWidth
    ++ ", height: " ++ render square.getHeight
    ++ " \x7d " ++ "\n"

/-- The `ShapeVisitor` sub-object of a `ShapePrinter`, acting on the content of `std::cout`. -/
def visitor (render : FP → String) : ShapeVisitor String where
  visitShapeCircle := visitShapeCircle render
  visitShapeSquare := visitShapeSquare render

end ShapePrinter

/-! ## Stream formatting (C++ standard library) -/

/-- Decimal digits of `n`, most significant first, padded with zeros to `width` digits. -/
def decimalDigits : ℕ → ℕ → List Char
  | 0, _ => []
  | width + 1, n => decimalDigits width (n / 10) ++ [Char.ofNat (48 + n % 10)]

/-- Remove the zeros at the end of a digit list. -/
def stripZeros (ds : List Char) : List Char :=
  (ds.reverse.dropWhile (· == '0')).reverse

/-- Floor of the base-ten logarithm of a positive rational between `10^-60` and `10^60`. -/
def ilog10 (a : ℚ) : ℤ :=
  (((List.range 120).filter (fun i => decide ((10 : ℚ) ^ ((i : ℤ) - 60) ≤ a))).length : ℤ) - 61

/-- Model of the insertion of a `float` into a `std::ostream` with the default flags, that is
the conversion `%g` with precision 6: six significant digits, scientific notation when the
decimal exponent is below `-4` or at least `6`, trailing zeros removed. -/
def renderFloat : FP → String
  | .nan => "nan"
  | .inf s => if s then "-inf" else "inf"
  | .fin q =>
    if q = 0 then "0" else
    let a := |q|
    let x0 := ilog10 a
    let m0 := (roundHalfEven (a / 10 ^ (x0 - 5))).toNat
    let x := if m0 = 1000000 then x0 + 1 else x0
    let m := if m0 = 1000000 then 100000 else m0
    let ds := decimalDigits 6 m
    let sign := if q < 0 then "-" else ""
    let body :=
      if x < -4 ∨ 6 ≤ x then
        let frac := stripZeros (ds.drop 1)
        String.mk (ds.take 1) ++ (if frac = [] then "" else "." ++ String.mk frac)
          ++ "e" ++ (if x < 0 then "-" else "+") ++ String.mk (decimalDigits 2 x.natAbs)
      else if 0 ≤ x then
        let frac := stripZeros (ds.drop (x.toNat + 1))
        String.mk (ds.take (x.toNat + 1)) ++ (if frac = [] then "" else "." ++ String.mk frac)
      else
        "0." ++ String.mk (List.replicate ((-x).toNat - 1) '0') ++ String.mk (stripZeros ds)
    sign ++ body

/-! ## `main` -/

/-- What the loop of `main` reads and writes: the content of `std::cout` and the two stateful
visitors (the printer has no member). -/
structure MainState where
  cout : String
  calculator : BoundingBoxCalculator
  accumulator : TotalAreaAccumulator
deriving DecidableEq

/-- The vector `shapes` after the two `push_back` calls; each `float` literal is the decimal value
rounded to `float`. -/
def mainShapes : List ShapePtr :=
  [ .circle (Circle.ctor (FP.neg (round32 1)) (round32 2) (round32 (5 / 10))),
    .square (Square.ctor (round32 12) (round32 3) (round32 (12 / 10)) (round32 (34 / 10))) ]

/-- One iteration of the range-based `for` of `main`. -/
def mainBody (render : FP → String) (st : MainState) (shape : ShapePtr) : MainState :=
  let cout1 := shape.accept (ShapePrinter.visitor render) st.cout
  let calculator := shape.accept BoundingBoxCalculator.visitor st.calculator
  let accumulator := shape.accept TotalAreaAccumulator.visitor st.accumulator
  let cout2 := cout1 ++ "  - total area: " ++ render accumulator.getTotalArea ++ "\n"
  let cout3 := cout2 ++ "  - bounding box: "
    ++ "\x7b left: " ++ render calculator.getLeft
    ++ ", right: " ++ render calculator.getRight
    ++ ", top: " ++ render calculator.getTop
    ++ ", bottom: " ++ render calculator.getBottom
    ++ " \x7d" ++ "\n"
  { cout := cout3, calculator := calculator, accumulator := accumulator }

/-- The state in which the loop of `main` starts: an empty output and the two default-constructed
visitors, whose members hold the indeterminate values `bottom left right top` and `totalArea`. -/
def mainInit (bottom left right top totalArea : FP) : MainState :=
  { cout := ""
    calculator := BoundingBoxCalculator.ctor bottom left right top
    accumulator := TotalAreaAccumulator.ctor totalArea }

/-- The function `main`: the loop over `shapes`, then `return 0`.  The result is the exit code
together with the final state. -/
def main (render : FP → String) (bottom left right top totalArea : FP) : Int × MainState :=
  (0, mainShapes.foldl (mainBody render) (mainInit bottom left right top totalArea))

/-! ## Lemmas on rounding -/

theorem log2Fuel_spec : ∀ (fuel n : ℕ), 0 < n → n ≤ fuel →
    2 ^ log2Fuel fuel n ≤ n ∧ n < 2 ^ (log2Fuel fuel n + 1) := by
  intro fuel
  induction fuel with
  | zero => intro n h0 h1; omega
  | succ fuel ih =>
    intro n h0 h1
    unfold log2Fuel
    split_ifs with h
    · constructor <;> simp <;> omega
    · obtain ⟨h2, h3⟩ := ih (n / 2) (by omega) (by omega)
      rw [pow_succ] at h3 ⊢
      constructor
      · omega
      · rw [pow_succ]; omega

theorem natLog2_spec (n : ℕ) (h : 0 < n) : 2 ^ natLog2 n ≤ n ∧ n < 2 ^ (natLog2 n + 1) :=
  log2Fuel_spec n n h le_rfl

theorem two_zpow_eq_div (k : ℤ) : (2 : ℚ) ^ k = (2 : ℚ) ^ k.toNat / (2 : ℚ) ^ (-k).toNat := by
  rcases le_or_lt 0 k with h | h
  · have h1 : (-k).toNat = 0 := by omega
    rw [h1, pow_zero, div_one, ← zpow_natCast, Int.toNat_of_nonneg h]
  · have h1 : k.toNat = 0 := by omega
    have h2 : k = -(((-k).toNat : ℕ) : ℤ) := by omega
    rw [h1, pow_zero, one_div, ← zpow_natCast, ← zpow_neg, ← h2]

theorem abs_eq_natAbs_div_den (q : ℚ) : |q| = (q.num.natAbs : ℚ) / (q.den : ℚ) := by
  conv_lhs => rw [← Rat.num_div_den q]
  rw [abs_div, Nat.abs_cast, Nat.cast_natAbs, Int.cast_abs]

theorem ilog2_spec (q : ℚ) (hq : q ≠ 0) :
    (2 : ℚ) ^ ilog2 q ≤ |q| ∧ |q| < (2 : ℚ) ^ (ilog2 q + 1) := by
  have ha : 0 < q.num.natAbs := Int.natAbs_pos.mpr (Rat.num_ne_zero.mpr hq)
  have hb : 0 < q.den := q.den_pos
  obtain ⟨hA1, hA2⟩ := natLog2_spec _ ha
  obtain ⟨hB1, hB2⟩ := natLog2_spec _ hb
  rw [abs_eq_natAbs_div_den]
  unfold ilog2
  simp only []
  generalize q.num.natAbs = a at *
  generalize q.den = b at *
  have hb' : (0 : ℚ) < b := by exact_mod_cast hb
  have hA1' : (2 : ℚ) ^ natLog2 a ≤ a := by exact_mod_cast hA1
  have hA2' : (a : ℚ) < 2 ^ (natLog2 a + 1) := by exact_mod_cast hA2
  have hB1' : (2 : ℚ) ^ natLog2 b ≤ b := by exact_mod_cast hB1
  have hB2' : (b : ℚ) < 2 ^ (natLog2 b + 1) := by exact_mod_cast hB2
  have hT : (0 : ℚ) < 2 ^ (((natLog2 a : ℤ) - (natLog2 b : ℤ))).toNat := by positivity
  have hS : (0 : ℚ) < 2 ^ (-((natLog2 a : ℤ) - (natLog2 b : ℤ))).toNat := by positivity
  have hpA : (0 : ℚ) < 2 ^ natLog2 a := by positivity
  have hpB : (0 : ℚ) < 2 ^ natLog2 b := by positivity
  split_ifs with h
  · have h' : (b : ℚ) * 2 ^ (((natLog2 a : ℤ) - (natLog2 b : ℤ))).toNat
        ≤ a * 2 ^ (-((natLog2 a : ℤ) - (natLog2 b : ℤ))).toNat := by exact_mod_cast h
    constructor
    · rw [two_zpow_eq_div, div_le_div_iff₀ hS hb']
      linarith
    · have e : (natLog2 a : ℤ) - (natLog2 b : ℤ) + 1 = ((natLog2 a + 1 : ℕ) : ℤ) - (natLog2 b : ℤ) := by
        push_cast; ring
      rw [e, zpow_sub₀ (by norm_num), zpow_natCast, zpow_natCast, div_lt_div_iff₀ hb' hpB]
      calc (a : ℚ) * 2 ^ natLog2 b < 2 ^ (natLog2 a + 1) * 2 ^ natLog2 b := by
            apply mul_lt_mul_of_pos_right hA2' hpB
        _ ≤ 2 ^ (natLog2 a + 1) * b := by
            apply mul_le_mul_of_nonneg_left hB1' (by positivity)
  · have h' : ¬ ((b : ℚ) * 2 ^ (((natLog2 a : ℤ) - (natLog2 b : ℤ))).toNat
        ≤ a * 2 ^ (-((natLog2 a : ℤ) - (natLog2 b : ℤ))).toNat) := by exact_mod_cast h
    constructor
    · have e : (natLog2 a : ℤ) - (natLog2 b : ℤ) - 1 = (natLog2 a : ℤ) - ((natLog2 b + 1 : ℕ) : ℤ) := by
        push_cast; ring
      rw [e, zpow_sub₀ (by norm_num), zpow_natCast, zpow_natCast, div_le_div_iff₀ (by positivity) hb']
      calc (2 : ℚ) ^ natLog2 a * b ≤ a * b := by
            apply mul_le_mul_of_nonneg_right hA1' hb'.le
        _ ≤ a * 2 ^ (natLog2 b + 1) := by
            apply mul_le_mul_of_nonneg_left hB2'.le (by positivity)
    · rw [sub_add_cancel, two_zpow_eq_div, div_lt_div_iff₀ hb' hS]
      linarith

theorem ilog2_unique (q : ℚ) (k : ℤ) (h1 : (2 : ℚ) ^ k ≤ |q|) (h2 : |q| < (2 : ℚ) ^ (k + 1)) :
    ilog2 q = k := by
  have hq : q ≠ 0 := by
    intro h
    rw [h, abs_zero] at h1
    have : (0 : ℚ) < 2 ^ k := by positivity
    linarith
  obtain ⟨h3, h4⟩ := ilog2_spec q hq
  have a1 : (2 : ℚ) ^ k < 2 ^ (ilog2 q + 1) := lt_of_le_of_lt h1 h4
  have a2 : (2 : ℚ) ^ ilog2 q < 2 ^ (k + 1) := lt_of_le_of_lt h3 h2
  rw [zpow_lt_zpow_iff_right₀ (by norm_num)] at a1 a2
  omega

theorem roundHalfEven_intCast (n : ℤ) : roundHalfEven (n : ℚ) = n := by
  unfold roundHalfEven
  simp

theorem roundHalfEven_cases (x : ℚ) :
    (roundHalfEven x = ⌊x⌋ ∧ x - ⌊x⌋ ≤ 1 / 2) ∨ (roundHalfEven x = ⌊x⌋ + 1 ∧ 1 / 2 ≤ x - ⌊x⌋) := by
  unfold roundHalfEven
  simp only []
  split_ifs with h1 h2 h3
  · left; exact ⟨rfl, h1.le⟩
  · right; exact ⟨rfl, h2.le⟩
  · left; exact ⟨rfl, not_lt.mp h2⟩
  · right; exact ⟨rfl, not_lt.mp h1⟩

theorem roundHalfEven_err (x : ℚ) : |(roundHalfEven x : ℚ) - x| ≤ 1 / 2 := by
  have h1 := Int.floor_le x
  have h2 := Int.lt_floor_add_one x
  rw [abs_le]
  rcases roundHalfEven_cases x with ⟨e, h⟩ | ⟨e, h⟩
  · rw [e]; constructor <;> linarith
  · rw [e]; push_cast; constructor <;> linarith

theorem roundHalfEven_mono {x y : ℚ} (h : x ≤ y) : roundHalfEven x ≤ roundHalfEven y := by
  have hf : ⌊x⌋ ≤ ⌊y⌋ := Int.floor_mono h
  rcases lt_or_eq_of_le hf with hlt | heq
  · rcases roundHalfEven_cases x with ⟨e, _⟩ | ⟨e, _⟩ <;>
      rcases roundHalfEven_cases y with ⟨e', _⟩ | ⟨e', _⟩ <;> rw [e, e'] <;> omega
  · unfold roundHalfEven
    simp only []
    rw [← heq]
    have hd : x - ⌊x⌋ ≤ y - ⌊x⌋ := by linarith
    split_ifs <;> first | omega | (exfalso; linarith)

theorem roundHalfEven_abs_le (x : ℚ) (N : ℤ) (h : |x| ≤ N) : |roundHalfEven x| ≤ N := by
  rw [abs_le] at h ⊢
  constructor
  · have := roundHalfEven_mono h.1
    have e : roundHalfEven (-(N : ℚ)) = -N := by
      rw [← Int.cast_neg, roundHalfEven_intCast]
    omega
  · have := roundHalfEven_mono h.2
    rw [roundHalfEven_intCast] at this
    exact this

theorem ilog2_le_of_abs_le (q : ℚ) (hq : q ≠ 0) (k : ℤ) (h : |q| ≤ 2 ^ k) : ilog2 q ≤ k := by
  have h1 := (ilog2_spec q hq).1
  have h2 : (2 : ℚ) ^ ilog2 q ≤ 2 ^ k := le_trans h1 h
  exact (zpow_le_zpow_iff_right₀ (by norm_num)).mp h2

theorem ilog2_lt_of_abs_lt (q : ℚ) (hq : q ≠ 0) (k : ℤ) (h : |q| < 2 ^ k) : ilog2 q < k := by
  have h1 := (ilog2_spec q hq).1
  have h2 : (2 : ℚ) ^ ilog2 q < 2 ^ k := lt_of_le_of_lt h1 h
  exact (zpow_lt_zpow_iff_right₀ (by norm_num)).mp h2

/-- The value `roundTo` computes before the overflow test. -/
theorem roundTo_eq (p : ℕ) (emin emax : ℤ) (q : ℚ) (hq : q ≠ 0) :
    roundTo p emin emax q =
      if 2 ^ (emax + 1) ≤
          |(roundHalfEven (q / 2 ^ (max (ilog2 q) emin - p + 1)) : ℚ)
            * 2 ^ (max (ilog2 q) emin - p + 1)|
      then .inf (decide (q < 0))
      else .fin ((roundHalfEven (q / 2 ^ (max (ilog2 q) emin - p + 1)) : ℚ)
            * 2 ^ (max (ilog2 q) emin - p + 1)) := by
  unfold roundTo
  rw [if_neg hq]

theorem roundTo_zero (p : ℕ) (emin emax : ℤ) : roundTo p emin emax 0 = .fin 0 := by
  unfold roundTo
  rw [if_pos rfl]

/-- A value that is a multiple of its own quantum and below the overflow threshold is left
unchanged by rounding. -/
theorem roundTo_exact (p : ℕ) (emin emax : ℤ) (q : ℚ) (n : ℤ)
    (hn : q = n * 2 ^ (max (ilog2 q) emin - p + 1)) (hmax : |q| < 2 ^ (emax + 1)) :
    roundTo p emin emax q = .fin q := by
  by_cases h0 : q = 0
  · rw [h0, roundTo_zero]
  · rw [roundTo_eq p emin emax q h0]
    have hu : (0 : ℚ) < 2 ^ (max (ilog2 q) emin - p + 1) := by positivity
    have e1 : q / 2 ^ (max (ilog2 q) emin - p + 1) = n := by
      rw [div_eq_iff hu.ne']
      exact hn
    rw [e1, roundHalfEven_intCast, ← hn, if_neg (not_le.mpr hmax)]

/-- Rounding a value of magnitude at most `2 ^ k` (with `k` in the exponent range) gives a
finite value of magnitude at most `2 ^ k`, off by at most `2 ^ (k - p)`. -/
theorem roundTo_bound (p : ℕ) (emin emax k : ℤ) (hp : 1 ≤ p) (h1 : emin ≤ k) (h2 : k ≤ emax)
    (q : ℚ) (hq : |q| ≤ 2 ^ k) :
    ∃ r, roundTo p emin emax q = .fin r ∧ |r - q| ≤ 2 ^ (k - p) ∧ |r| ≤ 2 ^ k := by
  by_cases h0 : q = 0
  · refine ⟨0, ?_, ?_, ?_⟩
    · rw [h0, roundTo_zero]
    · rw [h0]; simp; positivity
    · simp; positivity
  · rw [roundTo_eq p emin emax q h0]
    have he : max (ilog2 q) emin ≤ k := max_le (ilog2_le_of_abs_le q h0 k hq) h1
    generalize max (ilog2 q) emin = e at he ⊢
    have hu : (0 : ℚ) < 2 ^ (e - p + 1) := by positivity
    have herr := roundHalfEven_err (q / 2 ^ (e - p + 1))
    -- bound on the rounded integer
    have hN : |q / 2 ^ (e - p + 1)| ≤ ((2 ^ (k - (e - p + 1)).toNat : ℤ) : ℚ) := by
      rw [abs_div, abs_of_pos hu, div_le_iff₀ hu]
      push_cast
      rw [← zpow_natCast, Int.toNat_of_nonneg (by omega), ← zpow_add₀ (by norm_num)]
      rw [sub_add_cancel]
      exact hq
    have hn := roundHalfEven_abs_le _ _ hN
    generalize roundHalfEven (q / 2 ^ (e - p + 1)) = n at herr hn ⊢
    have hr : |(n : ℚ) * 2 ^ (e - p + 1)| ≤ 2 ^ k := by
      rw [abs_mul, abs_of_pos hu]
      have hn' : |(n : ℚ)| ≤ ((2 ^ (k - (e - p + 1)).toNat : ℤ) : ℚ) := by
        rw [← Int.cast_abs]; exact_mod_cast hn
      calc |(n : ℚ)| * 2 ^ (e - p + 1)
          ≤ ((2 ^ (k - (e - p + 1)).toNat : ℤ) : ℚ) * 2 ^ (e - p + 1) :=
            mul_le_mul_of_nonneg_right hn' hu.le
        _ = 2 ^ k := by
            push_cast
            rw [← zpow_natCast, Int.toNat_of_nonneg (by omega), ← zpow_add₀ (by norm_num)]
            rw [sub_add_cancel]
    have hlt : (2 : ℚ) ^ k < 2 ^ (emax + 1) :=
      (zpow_lt_zpow_iff_right₀ (by norm_num)).mpr (by omega)
    rw [if_neg (not_le.mpr (lt_of_le_of_lt hr hlt))]
    refine ⟨_, rfl, ?_, hr⟩
    have e2 : (n : ℚ) * 2 ^ (e - p + 1) - q = ((n : ℚ) - q / 2 ^ (e - p + 1)) * 2 ^ (e - p + 1) := by
      field_simp
    rw [e2, abs_mul, abs_of_pos hu]
    calc |(n : ℚ) - q / 2 ^ (e - p + 1)| * 2 ^ (e - p + 1)
        ≤ 1 / 2 * 2 ^ (e - p + 1) := mul_le_mul_of_nonneg_right herr hu.le
      _ = 2 ^ (e - p) := by
          rw [zpow_add₀ (by norm_num)]; simp; ring
      _ ≤ 2 ^ (k - p) := (zpow_le_zpow_iff_right₀ (by norm_num)).mpr (by omega)

/-- Rounding is idempotent: a finite result of `roundTo` is a fixed point of `roundTo`. -/
theorem roundTo_idem (p : ℕ) (emin emax : ℤ) (hp : 1 ≤ p) (q r : ℚ)
    (h : roundTo p emin emax q = .fin r) : roundTo p emin emax r = .fin r := by
  by_cases h0 : q = 0
  · rw [h0, roundTo_zero] at h
    injection h with h
    rw [← h, roundTo_zero]
  rw [roundTo_eq p emin emax q h0] at h
  split_ifs at h with hov
  injection h with h
  have hemin : emin ≤ max (ilog2 q) emin := le_max_right _ _
  have hqe : |q| < 2 ^ (max (ilog2 q) emin + 1) :=
    lt_of_lt_of_le (ilog2_spec q h0).2
      ((zpow_le_zpow_iff_right₀ (by norm_num)).mpr (by have := le_max_left (ilog2 q) emin; omega))
  generalize max (ilog2 q) emin = e at h hov hemin hqe
  have hu : (0 : ℚ) < 2 ^ (e - p + 1) := by positivity
  have hN : |q / 2 ^ (e - p + 1)| ≤ ((2 ^ p : ℤ) : ℚ) := by
    rw [abs_div, abs_of_pos hu, div_le_iff₀ hu]
    push_cast
    rw [← zpow_natCast, ← zpow_add₀ (by norm_num)]
    have e1 : (p : ℤ) + (e - p + 1) = e + 1 := by ring
    rw [e1]
    exact hqe.le
  have hn := roundHalfEven_abs_le _ _ hN
  generalize roundHalfEven (q / 2 ^ (e - p + 1)) = n at h hov hn
  have hmax : |r| < 2 ^ (emax + 1) := by rw [← h]; exact not_le.mp hov
  have habs : |r| = ((|n| : ℤ) : ℚ) * 2 ^ (e - p + 1) := by
    rw [← h, abs_mul, abs_of_pos hu, Int.cast_abs]
  by_cases hr0 : r = 0
  · rw [hr0, roundTo_zero]
  rcases lt_or_eq_of_le hn with hlt | heq
  · -- the result stays in the binade of `q` or below
    have hlt' : ((|n| : ℤ) : ℚ) < ((2 ^ p : ℤ) : ℚ) := by exact_mod_cast hlt
    have hre : |r| < 2 ^ (e + 1) := by
      rw [habs]
      calc ((|n| : ℤ) : ℚ) * 2 ^ (e - p + 1) < ((2 ^ p : ℤ) : ℚ) * 2 ^ (e - p + 1) :=
            mul_lt_mul_of_pos_right hlt' hu
        _ = 2 ^ (e + 1) := by
            push_cast
            rw [← zpow_natCast, ← zpow_add₀ (by norm_num)]
            congr 1; ring
    have hle : max (ilog2 r) emin ≤ e := max_le (by have := ilog2_lt_of_abs_lt r hr0 _ hre; omega) hemin
    apply roundTo_exact p emin emax r (n * 2 ^ (e - max (ilog2 r) emin).toNat) _ hmax
    generalize max (ilog2 r) emin = e' at hle ⊢
    rw [← h]
    push_cast
    rw [mul_assoc, ← zpow_natCast, Int.toNat_of_nonneg (by omega), ← zpow_add₀ (by norm_num)]
    congr 2; ring
  · -- the result is the power of two that opens the next binade
    have hre : |r| = 2 ^ (e + 1) := by
      rw [habs, heq]
      push_cast
      rw [← zpow_natCast, ← zpow_add₀ (by norm_num)]
      congr 1; ring
    have hlog : ilog2 r = e + 1 := by
      apply ilog2_unique
      · rw [hre]
      · rw [hre]
        exact (zpow_lt_zpow_iff_right₀ (by norm_num)).mpr (by omega)
    have hmaxe : max (ilog2 r) emin = e + 1 := by rw [hlog]; exact max_eq_left (by omega)
    have h2 : (2 : ℤ) ^ p = 2 * 2 ^ (p - 1) := by
      conv_lhs => rw [← Nat.sub_add_cancel hp]
      rw [pow_succ]; ring
    have hev : n = 2 * (n / 2) := by
      rcases abs_eq (by positivity : (0 : ℤ) ≤ 2 ^ p) |>.mp heq with hh | hh <;> omega
    apply roundTo_exact p emin emax r (n / 2) _ hmax
    have hev' : (n : ℚ) = 2 * ((n / 2 : ℤ) : ℚ) := by exact_mod_cast hev
    have e3 : e + 1 - (p : ℤ) + 1 = 1 + (e - p + 1) := by ring
    rw [hmaxe, ← h, hev', e3, zpow_add₀ (by norm_num : (2 : ℚ) ≠ 0) 1 (e - p + 1), zpow_one]
    ring

/-! ## Lemmas on floating-point values -/

theorem roundTo_isNum (p : ℕ) (emin emax : ℤ) (q : ℚ) : (roundTo p emin emax q).isNum = true := by
  unfold roundTo
  simp only []
  split_ifs <;> rfl

theorem round32_idem (q r : ℚ) (h : round32 q = .fin r) : round32 r = .fin r :=
  roundTo_idem 24 (-126) 127 (by norm_num) q r h

theorem isFloat_iff (v : FP) : v.isFloat = true ↔ v.toFloat = v := by
  unfold FP.isFloat
  simp

theorem isFloat_round32 (q : ℚ) : (round32 q).isFloat = true := by
  rw [isFloat_iff]
  cases h : round32 q with
  | nan => rfl
  | inf s => rfl
  | fin r => exact round32_idem q r h

theorem isFloat_nan : FP.nan.isFloat = true := by rw [isFloat_iff]; rfl

theorem isFloat_inf (s : Bool) : (FP.inf s).isFloat = true := by rw [isFloat_iff]; rfl

theorem isFloat_toFloat (v : FP) : v.toFloat.isFloat = true := by
  cases v with
  | nan => exact isFloat_nan
  | inf s => exact isFloat_inf s
  | fin q => exact isFloat_round32 q

theorem isFloat_add32 (a b : FP) : (add32 a b).isFloat = true := by
  cases a <;> cases b <;> simp only [add32, FP.add] <;>
    first | exact isFloat_nan | exact isFloat_inf _ | exact isFloat_round32 _ | skip
  split_ifs
  · exact isFloat_inf _
  · exact isFloat_nan

theorem isFloat_mul32 (a b : FP) : (mul32 a b).isFloat = true := by
  cases a <;> cases b <;> simp only [mul32, FP.mul] <;>
    first | exact isFloat_nan | exact isFloat_inf _ | exact isFloat_round32 _ | skip
  all_goals split_ifs
  all_goals first | exact isFloat_nan | exact isFloat_inf _

/-- Adding a `float` to zero gives that `float` back. -/
theorem add32_zero_left (v : FP) (hv : v.isFloat = true) : add32 (.fin 0) v = v := by
  rw [isFloat_iff] at hv
  cases v with
  | nan => rfl
  | inf s => rfl
  | fin q =>
    simp only [add32, FP.add, zero_add]
    exact hv

theorem add32_comm (a b : FP) : add32 a b = add32 b a := by
  cases a <;> cases b <;> simp only [add32, FP.add]
  · rename_i s t
    by_cases h : s = t
    · subst h; rfl
    · rw [if_neg h, if_neg (Ne.symm h)]
  · rw [add_comm]

theorem lt_imp_le (a b : FP) (h : FP.lt a b = true) : FP.le a b = true := by
  cases a with
  | nan => simp [FP.lt] at h
  | inf s =>
    cases b with
    | nan => cases s <;> simp [FP.lt] at h
    | inf t => cases s <;> cases t <;> first | rfl | simp [FP.lt] at h
    | fin q => cases s <;> first | rfl | simp [FP.lt] at h
  | fin p =>
    cases b with
    | nan => simp [FP.lt] at h
    | inf t => cases t <;> first | rfl | simp [FP.lt] at h
    | fin q =>
      simp only [FP.lt, decide_eq_true_eq] at h
      simp only [FP.le, decide_eq_true_eq]
      exact h.le

theorem le_refl_of_isNum (a : FP) (h : a.isNum = true) : FP.le a a = true := by
  cases a with
  | nan => simp [FP.isNum] at h
  | inf s => cases s <;> rfl
  | fin p => simp [FP.le]

theorem le_of_not_lt (a b : FP) (ha : a.isNum = true) (hb : b.isNum = true)
    (h : FP.lt b a = false) : FP.le a b = true := by
  cases a with
  | nan => simp [FP.isNum] at ha
  | inf s =>
    cases b with
    | nan => simp [FP.isNum] at hb
    | inf t => cases s <;> cases t <;> first | rfl | simp [FP.lt] at h
    | fin q => cases s <;> first | rfl | simp [FP.lt] at h
  | fin p =>
    cases b with
    | nan => simp [FP.isNum] at hb
    | inf t => cases t <;> first | rfl | simp [FP.lt] at h
    | fin q =>
      simp only [FP.lt, decide_eq_false_iff_not, not_lt] at h
      simp only [FP.le, decide_eq_true_eq]
      exact h

theorem stdMin_le_left (a b : FP) (ha : a.isNum = true) : FP.le (stdMin a b) a = true := by
  unfold stdMin
  split_ifs with h
  · exact lt_imp_le b a h
  · exact le_refl_of_isNum a ha

theorem stdMin_le_right (a b : FP) (ha : a.isNum = true) (hb : b.isNum = true) :
    FP.le (stdMin a b) b = true := by
  unfold stdMin
  split_ifs with h
  · exact le_refl_of_isNum b hb
  · exact le_of_not_lt a b ha hb (by simpa using h)

theorem le_stdMax_left (a b : FP) (ha : a.isNum = true) : FP.le a (stdMax a b) = true := by
  unfold stdMax
  split_ifs with h
  · exact lt_imp_le a b h
  · exact le_refl_of_isNum a ha

theorem le_stdMax_right (a b : FP) (ha : a.isNum = true) (hb : b.isNum = true) :
    FP.le b (stdMax a b) = true := by
  unfold stdMax
  split_ifs with h
  · exact le_refl_of_isNum b hb
  · exact le_of_not_lt b a hb ha (by simpa using h)

theorem isNum_neg (v : FP) (h : v.isNum = true) : (FP.neg v).isNum = true := by
  cases v with
  | nan => simp [FP.isNum] at h
  | inf s => rfl
  | fin q => rfl

theorem isNum_add32_fin (x : ℚ) (v : FP) (h : v.isNum = true) :
    (add32 (.fin x) v).isNum = true := by
  cases v with
  | nan => simp [FP.isNum] at h
  | inf s => rfl
  | fin q => exact roundTo_isNum _ _ _ _

theorem isNum_sub32_fin (x : ℚ) (v : FP) (h : v.isNum = true) :
    (sub32 (.fin x) v).isNum = true :=
  isNum_add32_fin x (FP.neg v) (isNum_neg v h)

theorem isNum_div32_two (w : ℚ) : (div32 (.fin w) two).isNum = true := by
  simp only [div32, two, FP.div]
  rw [if_neg (by norm_num)]
  exact roundTo_isNum _ _ _ _

/-! ## Monotonicity of rounding -/

theorem roundHalfEven_neg (x : ℚ) : roundHalfEven (-x) = -roundHalfEven x := by
  by_cases hx : (⌊x⌋ : ℚ) = x
  · rw [← hx, ← Int.cast_neg, roundHalfEven_intCast, roundHalfEven_intCast]
  · have h1 := Int.floor_le x
    have h2 := Int.lt_floor_add_one x
    have h3 : (⌊x⌋ : ℚ) < x := lt_of_le_of_ne h1 hx
    have hf : ⌊-x⌋ = -⌊x⌋ - 1 := by
      rw [Int.floor_eq_iff]
      push_cast
      constructor <;> linarith
    unfold roundHalfEven
    simp only []
    rw [hf]
    push_cast
    split_ifs <;> first | omega | (exfalso; linarith)

theorem ilog2_neg (q : ℚ) : ilog2 (-q) = ilog2 q := by
  unfold ilog2
  simp

theorem roundUnbounded_zero (p : ℕ) (emin : ℤ) : roundUnbounded p emin 0 = 0 := by
  unfold roundUnbounded
  rw [zero_div]
  have := roundHalfEven_intCast 0
  simp only [Int.cast_zero] at this
  rw [this]
  simp

theorem roundUnbounded_neg (p : ℕ) (emin : ℤ) (q : ℚ) :
    roundUnbounded p emin (-q) = -roundUnbounded p emin q := by
  unfold roundUnbounded
  rw [ilog2_neg, neg_div, roundHalfEven_neg]
  push_cast
  ring

theorem roundTo_eq_unbounded (p : ℕ) (emin emax : ℤ) (q : ℚ) :
    roundTo p emin emax q =
      if 2 ^ (emax + 1) ≤ |roundUnbounded p emin q| then .inf (decide (q < 0))
      else .fin (roundUnbounded p emin q) := by
  by_cases h0 : q = 0
  · rw [h0, roundTo_zero, roundUnbounded_zero, abs_zero, if_neg]
    exact not_le.mpr (by positivity)
  · rw [roundTo_eq p emin emax q h0]
    rfl

theorem ilog2_mono_of_pos {q1 q2 : ℚ} (h1 : 0 < q1) (h : q1 ≤ q2) : ilog2 q1 ≤ ilog2 q2 := by
  have h2 : 0 < q2 := lt_of_lt_of_le h1 h
  have a1 := (ilog2_spec q1 h1.ne').1
  have a2 := (ilog2_spec q2 h2.ne').2
  rw [abs_of_pos h1] at a1
  rw [abs_of_pos h2] at a2
  have : (2 : ℚ) ^ ilog2 q1 < 2 ^ (ilog2 q2 + 1) := lt_of_le_of_lt a1 (lt_of_le_of_lt h a2)
  have := (zpow_lt_zpow_iff_right₀ (by norm_num : (1 : ℚ) < 2)).mp this
  omega

theorem roundUnbounded_nonneg (p : ℕ) (emin : ℤ) {q : ℚ} (h : 0 ≤ q) :
    0 ≤ roundUnbounded p emin q := by
  unfold roundUnbounded
  have hu : (0 : ℚ) < 2 ^ (max (ilog2 q) emin - p + 1) := by positivity
  have h1 : 0 ≤ q / 2 ^ (max (ilog2 q) emin - p + 1) := div_nonneg h hu.le
  have h2 := roundHalfEven_mono h1
  have h3 : roundHalfEven 0 = 0 := by
    have := roundHalfEven_intCast 0
    simpa using this
  rw [h3] at h2
  have h4 : (0 : ℚ) ≤ (roundHalfEven (q / 2 ^ (max (ilog2 q) emin - p + 1)) : ℚ) := by
    exact_mod_cast h2
  exact mul_nonneg h4 hu.le

theorem roundUnbounded_mono_of_pos (p : ℕ) (emin : ℤ) (hp : 1 ≤ p) {q1 q2 : ℚ} (h1 : 0 < q1)
    (h : q1 ≤ q2) : roundUnbounded p emin q1 ≤ roundUnbounded p emin q2 := by
  have h2 : 0 < q2 := lt_of_lt_of_le h1 h
  have hlog := ilog2_mono_of_pos h1 h
  have he : max (ilog2 q1) emin ≤ max (ilog2 q2) emin := max_le_max hlog le_rfl
  rcases lt_or_eq_of_le he with hlt | heq
  · -- different binades: a power of two separates the two results
    have he2 : max (ilog2 q2) emin = ilog2 q2 := by
      apply max_eq_left
      have := le_max_right (ilog2 q1) emin
      by_contra hc
      rw [max_eq_right (by omega : ilog2 q2 ≤ emin)] at hlt
      omega
    have b1 : q1 < 2 ^ (max (ilog2 q1) emin + 1) := by
      have a := (ilog2_spec q1 h1.ne').2
      rw [abs_of_pos h1] at a
      exact lt_of_lt_of_le a ((zpow_le_zpow_iff_right₀ (by norm_num)).mpr
        (by have := le_max_left (ilog2 q1) emin; omega))
    have b2 : (2 : ℚ) ^ (max (ilog2 q2) emin) ≤ q2 := by
      have a := (ilog2_spec q2 h2.ne').1
      rw [abs_of_pos h2] at a
      rw [he2]; exact a
    unfold roundUnbounded
    generalize max (ilog2 q1) emin = e1 at hlt b1 ⊢
    generalize max (ilog2 q2) emin = e2 at hlt b2 ⊢
    have hu1 : (0 : ℚ) < 2 ^ (e1 - p + 1) := by positivity
    have hu2 : (0 : ℚ) < 2 ^ (e2 - p + 1) := by positivity
    have c1 : q1 / 2 ^ (e1 - p + 1) ≤ ((2 ^ p : ℤ) : ℚ) := by
      rw [div_le_iff₀ hu1]
      push_cast
      rw [← zpow_natCast, ← zpow_add₀ (by norm_num)]
      have : (p : ℤ) + (e1 - p + 1) = e1 + 1 := by ring
      rw [this]
      exact b1.le
    have c2 : ((2 ^ (p - 1) : ℤ) : ℚ) ≤ q2 / 2 ^ (e2 - p + 1) := by
      rw [le_div_iff₀ hu2]
      push_cast
      rw [← zpow_natCast, ← zpow_add₀ (by norm_num)]
      have : ((p - 1 : ℕ) : ℤ) + (e2 - p + 1) = e2 := by
        rw [Nat.cast_sub hp]; push_cast; ring
      rw [this]
      exact b2
    have d1 := roundHalfEven_mono c1
    have d2 := roundHalfEven_mono c2
    rw [roundHalfEven_intCast] at d1 d2
    have d1' : (roundHalfEven (q1 / 2 ^ (e1 - p + 1)) : ℚ) ≤ ((2 ^ p : ℤ) : ℚ) := by
      exact_mod_cast d1
    have d2' : ((2 ^ (p - 1) : ℤ) : ℚ) ≤ (roundHalfEven (q2 / 2 ^ (e2 - p + 1)) : ℚ) := by
      exact_mod_cast d2
    calc (roundHalfEven (q1 / 2 ^ (e1 - p + 1)) : ℚ) * 2 ^ (e1 - p + 1)
        ≤ ((2 ^ p : ℤ) : ℚ) * 2 ^ (e1 - p + 1) := mul_le_mul_of_nonneg_right d1' hu1.le
      _ = 2 ^ (e1 + 1) := by
          push_cast
          rw [← zpow_natCast, ← zpow_add₀ (by norm_num)]
          congr 1; ring
      _ ≤ 2 ^ e2 := (zpow_le_zpow_iff_right₀ (by norm_num)).mpr (by omega)
      _ = ((2 ^ (p - 1) : ℤ) : ℚ) * 2 ^ (e2 - p + 1) := by
          push_cast
          rw [← zpow_natCast, ← zpow_add₀ (by norm_num)]
          congr 1
          rw [Nat.cast_sub hp]; push_cast; ring
      _ ≤ (roundHalfEven (q2 / 2 ^ (e2 - p + 1)) : ℚ) * 2 ^ (e2 - p + 1) :=
          mul_le_mul_of_nonneg_right d2' hu2.le
  · -- same binade: the same quantum
    unfold roundUnbounded
    rw [← heq]
    have hu : (0 : ℚ) < 2 ^ (max (ilog2 q1) emin - p + 1) := by positivity
    have c : q1 / 2 ^ (max (ilog2 q1) emin - p + 1) ≤ q2 / 2 ^ (max (ilog2 q1) emin - p + 1) :=
      div_le_div_of_nonneg_right h hu.le
    have d := roundHalfEven_mono c
    have d' : (roundHalfEven (q1 / 2 ^ (max (ilog2 q1) emin - p + 1)) : ℚ)
        ≤ (roundHalfEven (q2 / 2 ^ (max (ilog2 q1) emin - p + 1)) : ℚ) := by exact_mod_cast d
    exact mul_le_mul_of_nonneg_right d' hu.le

theorem roundUnbounded_mono (p : ℕ) (emin : ℤ) (hp : 1 ≤ p) {q1 q2 : ℚ} (h : q1 ≤ q2) :
    roundUnbounded p emin q1 ≤ roundUnbounded p emin q2 := by
  rcases lt_trichotomy q1 0 with n1 | z1 | p1
  · rcases lt_trichotomy q2 0 with n2 | z2 | p2
    · have := roundUnbounded_mono_of_pos p emin hp (neg_pos.mpr n2) (neg_le_neg h)
      rw [roundUnbounded_neg, roundUnbounded_neg] at this
      linarith
    · rw [z2, roundUnbounded_zero]
      have := roundUnbounded_nonneg p emin (neg_pos.mpr n1).le
      rw [roundUnbounded_neg] at this
      linarith
    · have a := roundUnbounded_nonneg p emin (neg_pos.mpr n1).le
      rw [roundUnbounded_neg] at a
      have b := roundUnbounded_nonneg p emin p2.le
      linarith
  · rw [z1, roundUnbounded_zero]
    exact roundUnbounded_nonneg p emin (by linarith)
  · exact roundUnbounded_mono_of_pos p emin hp p1 h

/-- Rounding is monotone: a greater exact value never rounds to a smaller datum. -/
theorem roundTo_mono (p : ℕ) (emin emax : ℤ) (hp : 1 ≤ p) {q1 q2 : ℚ} (h : q1 ≤ q2) :
    FP.le (roundTo p emin emax q1) (roundTo p emin emax q2) = true := by
  have hm := roundUnbounded_mono p emin hp h
  have hM : (0 : ℚ) < 2 ^ (emax + 1) := by positivity
  rw [roundTo_eq_unbounded, roundTo_eq_unbounded]
  by_cases o2 : 2 ^ (emax + 1) ≤ |roundUnbounded p emin q2|
  · rw [if_pos o2]
    by_cases s2 : q2 < 0
    · have s1 : q1 < 0 := lt_of_le_of_lt h s2
      have r2 : roundUnbounded p emin q2 ≤ 0 := by
        have := roundUnbounded_nonneg p emin (neg_pos.mpr s2).le
        rw [roundUnbounded_neg] at this
        linarith
      rw [abs_of_nonpos r2] at o2
      have r1 : roundUnbounded p emin q1 ≤ 0 := le_trans hm r2
      have o1 : 2 ^ (emax + 1) ≤ |roundUnbounded p emin q1| := by
        rw [abs_of_nonpos r1]; linarith
      rw [if_pos o1]
      simp [s1, s2, FP.le]
    · by_cases o1 : 2 ^ (emax + 1) ≤ |roundUnbounded p emin q1|
      · rw [if_pos o1]
        by_cases s1 : q1 < 0 <;> simp [s1, s2, FP.le]
      · rw [if_neg o1]
        simp [s2, FP.le]
  · rw [if_neg o2]
    by_cases o1 : 2 ^ (emax + 1) ≤ |roundUnbounded p emin q1|
    · rw [if_pos o1]
      by_cases s1 : q1 < 0
      · simp [s1, FP.le]
      · exfalso
        have r1 := roundUnbounded_nonneg p emin (not_lt.mp s1)
        rw [abs_of_nonneg r1] at o1
        have r2 : 0 ≤ roundUnbounded p emin q2 := le_trans r1 hm
        rw [abs_of_nonneg r2] at o2
        linarith
    · rw [if_neg o1]
      simp only [FP.le, decide_eq_true_eq]
      exact hm

theorem le_trans_fp (a b c : FP) (h1 : FP.le a b = true) (h2 : FP.le b c = true) :
    FP.le a c = true := by
  rcases a with _ | (_ | _) | p <;> rcases b with _ | (_ | _) | q <;>
    rcases c with _ | (_ | _) | r <;>
    first
    | rfl
    | (simp [FP.le] at h1; done)
    | (simp [FP.le] at h2; done)
    | (simp only [FP.le, decide_eq_true_eq] at h1 h2 ⊢; exact le_trans h1 h2)

/-! ## Lemmas on `std::max` and `std::min` -/

theorem stdMax_fin (a b : ℚ) : stdMax (.fin a) (.fin b) = .fin (max a b) := by
  unfold stdMax
  simp only [FP.lt, decide_eq_true_eq]
  split_ifs with h
  · rw [max_eq_right h.le]
  · rw [max_eq_left (not_lt.mp h)]

theorem stdMin_fin (a b : ℚ) : stdMin (.fin a) (.fin b) = .fin (min a b) := by
  unfold stdMin
  simp only [FP.lt, decide_eq_true_eq]
  split_ifs with h
  · rw [min_eq_right h.le]
  · rw [min_eq_left (not_lt.mp h)]

/-! ## Double dispatch -/

/-- C1. Double dispatch.  For each of the three visitors, in any state, `accept` on a `Circle`
is the visitor's `visitShape(const Circle &)` and `accept` on a `Square` is its
`visitShape(const Square &)`; the same holds for the virtual call through a `Shape` pointer, for
any visitor.  The handler of the other class is never run: `accept` gives the same result
whatever that handler is. -/
theorem accept_double_dispatch :
    (∀ (c : Circle) (v : BoundingBoxCalculator),
        c.accept BoundingBoxCalculator.visitor v = v.visitShapeCircle c) ∧
    (∀ (c : Circle) (v : TotalAreaAccumulator),
        c.accept TotalAreaAccumulator.visitor v = v.visitShapeCircle c) ∧
    (∀ (render : FP → String) (c : Circle) (cout : String),
        c.accept (ShapePrinter.visitor render) cout = ShapePrinter.visitShapeCircle render c cout) ∧
    (∀ (s : Square) (v : BoundingBoxCalculator),
        s.accept BoundingBoxCalculator.visitor v = v.visitShapeSquare s) ∧
    (∀ (s : Square) (v : TotalAreaAccumulator),
        s.accept TotalAreaAccumulator.visitor v = v.visitShapeSquare s) ∧
    (∀ (render : FP → String) (s : Square) (cout : String),
        s.accept (ShapePrinter.visitor render) cout = ShapePrinter.visitShapeSquare render s cout) ∧
    (∀ (σ : Type) (v : ShapeVisitor σ) (c : Circle) (st : σ),
        (ShapePtr.circle c).accept v st = v.visitShapeCircle c st) ∧
    (∀ (σ : Type) (v : ShapeVisitor σ) (s : Square) (st : σ),
        (ShapePtr.square s).accept v st = v.visitShapeSquare s st) ∧
    (∀ (σ : Type) (onCircle : Circle → σ → σ) (onSquare onSquare2 : Square → σ → σ)
        (c : Circle) (st : σ),
        c.accept { visitShapeCircle := onCircle, visitShapeSquare := onSquare } st
          = c.accept { visitShapeCircle := onCircle, visitShapeSquare := onSquare2 } st) ∧
    (∀ (σ : Type) (onCircle onCircle2 : Circle → σ → σ) (onSquare : Square → σ → σ)
        (s : Square) (st : σ),
        s.accept { visitShapeCircle := onCircle, visitShapeSquare := onSquare } st
          = s.accept { visitShapeCircle := onCircle2, visitShapeSquare := onSquare } st) := by
  refine ⟨?_, ?_, ?_, ?_, ?_, ?_, ?_, ?_, ?_, ?_⟩ <;> intros <;> rfl

/-! ## `TotalAreaAccumulator`: squares -/

/-- C3. From a running sum of `0`, one visit of a square of width `w` and height `h` (any sign,
any centre) leaves `getTotalArea() = w * h`, the `float` product, which for finite members is the
exact product rounded once to `float`; in general one `Square` visit adds `width * height` to the
running sum, in `float` arithmetic. -/
theorem totalArea_visit_square (x y w h : FP) (p q : ℚ) (acc : TotalAreaAccumulator) :
    ((TotalAreaAccumulator.ctor (.fin 0)).visitShapeSquare (Square.ctor x y w h)).getTotalArea
        = mul32 w h ∧
    ((TotalAreaAccumulator.ctor (.fin 0)).visitShapeSquare
        (Square.ctor x y (.fin p) (.fin q))).getTotalArea = round32 (p * q) ∧
    (acc.visitShapeSquare (Square.ctor x y w h)).getTotalArea
        = add32 acc.getTotalArea (mul32 w h) := by
  refine ⟨?_, ?_, rfl⟩
  · exact add32_zero_left _ (isFloat_mul32 w h)
  · exact add32_zero_left _ (isFloat_mul32 (.fin p) (.fin q))

/-! ## `BoundingBoxCalculator`: the two handlers -/

/-- C6. For every prior state and every circle of centre `(x, y)` and radius `r`, one `Circle`
visit yields `right = max(right, x + r)`, `left = min(left, x - r)`,
`bottom = max(bottom, y + r)`, `top = min(top, y - r)` (the `std::max` and `std::min` of `float`
sums and differences, which on finite operands are the greater and the smaller of the two
values), and each accessor returns the member of the same name. -/
theorem boundingBox_visit_circle (b : BoundingBoxCalculator) (x y r : FP) (p q : ℚ) :
    (b.visitShapeCircle (Circle.ctor x y r)).getRight = stdMax b.getRight (add32 x r) ∧
    (b.visitShapeCircle (Circle.ctor x y r)).getLeft = stdMin b.getLeft (sub32 x r) ∧
    (b.visitShapeCircle (Circle.ctor x y r)).getBottom = stdMax b.getBottom (add32 y r) ∧
    (b.visitShapeCircle (Circle.ctor x y r)).getTop = stdMin b.getTop (sub32 y r) ∧
    b.getRight = b.right ∧ b.getLeft = b.left ∧ b.getBottom = b.bottom ∧ b.getTop = b.top ∧
    stdMax (.fin p) (.fin q) = .fin (max p q) ∧ stdMin (.fin p) (.fin q) = .fin (min p q) :=
  ⟨rfl, rfl, rfl, rfl, rfl, rfl, rfl, rfl, stdMax_fin p q, stdMin_fin p q⟩

/-- C7. For every prior state and every square of centre `(x, y)`, width `w` and height `h`, one
`Square` visit yields `right = max(right, x + w/2)`, `bottom = max(bottom, y + w/2)`,
`left = min(left, x - h/2)`, `top = min(top, y - h/2)`: right and bottom use half the width, left
and top use half the height.  The halves are `float` quotients by `2.f`, that is, for a finite
member the exact half rounded to `float`. -/
theorem boundingBox_visit_square (b : BoundingBoxCalculator) (x y w h : FP) (p : ℚ) :
    (b.visitShapeSquare (Square.ctor x y w h)).getRight
        = stdMax b.getRight (add32 x (div32 w two)) ∧
    (b.visitShapeSquare (Square.ctor x y w h)).getBottom
        = stdMax b.getBottom (add32 y (div32 w two)) ∧
    (b.visitShapeSquare (Square.ctor x y w h)).getLeft
        = stdMin b.getLeft (sub32 x (div32 h two)) ∧
    (b.visitShapeSquare (Square.ctor x y w h)).getTop
        = stdMin b.getTop (sub32 y (div32 h two)) ∧
    div32 (.fin p) two = round32 (p / 2) := by
  refine ⟨rfl, rfl, rfl, rfl, ?_⟩
  simp only [div32, two, FP.div]
  rw [if_neg (by norm_num)]

/-! ## `TotalAreaAccumulator`: circles -/

theorem M_PI_eq : M_PI = .fin (884279719003555 / 281474976710656) := by decide!

/-- The `double` constant `M_PI` is below the real number `π`, by less than `2e-16`. -/
theorem M_PI_near_pi :
    ((884279719003555 / 281474976710656 : ℚ) : ℝ) < Real.pi ∧
    Real.pi - ((884279719003555 / 281474976710656 : ℚ) : ℝ) < 2 / 10 ^ 16 := by
  have h1 := Real.pi_gt_d20
  have h2 := Real.pi_lt_d20
  push_cast
  constructor
  · norm_num at h1 ⊢; linarith
  · norm_num at h2 ⊢; linarith

/-- C2, counterexample.  The radius `16` is a non-negative `float`, and from a running sum of `0`
one visit of a circle of radius `16` leaves `804.24774169921875`, more than `1e-5` away from
`16^2 * π`.  The same happens for the `float` radius `13386291 / 2^21 = 6.38308...`, which leaves
`8388619 / 2^16 = 128.000167...`. -/
theorem totalArea_circle_tolerance_fails :
    ((FP.fin 16).isFloat = true ∧ (0 : ℚ) ≤ 16 ∧
      (FP.fin (13386291 / 2097152)).isFloat = true ∧ (0 : ℚ) ≤ 13386291 / 2097152) ∧
    ((TotalAreaAccumulator.ctor (.fin 0)).visitShapeCircle
        (Circle.ctor (.fin 0) (.fin 0) (.fin 16))).getTotalArea = .fin (13176795 / 16384) ∧
    ¬ FP.within
        ((TotalAreaAccumulator.ctor (.fin 0)).visitShapeCircle
          (Circle.ctor (.fin 0) (.fin 0) (.fin 16))).getTotalArea
        (((16 : ℚ) : ℝ) ^ 2 * Real.pi) (1 / 100000) ∧
    ((TotalAreaAccumulator.ctor (.fin 0)).visitShapeCircle
        (Circle.ctor (.fin 0) (.fin 0) (.fin (13386291 / 2097152)))).getTotalArea
      = .fin (8388619 / 65536) ∧
    ¬ FP.within
        ((TotalAreaAccumulator.ctor (.fin 0)).visitShapeCircle
          (Circle.ctor (.fin 0) (.fin 0) (.fin (13386291 / 2097152)))).getTotalArea
        (((13386291 / 2097152 : ℚ) : ℝ) ^ 2 * Real.pi) (1 / 100000) := by
  have hv : ((TotalAreaAccumulator.ctor (.fin 0)).visitShapeCircle
        (Circle.ctor (.fin 0) (.fin 0) (.fin 16))).getTotalArea = .fin (13176795 / 16384) := by
    decide!
  have hw : ((TotalAreaAccumulator.ctor (.fin 0)).visitShapeCircle
        (Circle.ctor (.fin 0) (.fin 0) (.fin (13386291 / 2097152)))).getTotalArea
      = .fin (8388619 / 65536) := by
    decide!
  have h2 := Real.pi_lt_d20
  refine ⟨⟨by decide!, by norm_num, by decide!, by norm_num⟩, hv, ?_, hw, ?_⟩
  · rw [hv]
    rintro ⟨q, hq, hb⟩
    injection hq with hq
    rw [← hq] at hb
    rw [abs_le] at hb
    push_cast at hb
    norm_num at hb h2
    linarith [hb.2]
  · rw [hw]
    rintro ⟨q, hq, hb⟩
    injection hq with hq
    rw [← hq] at hb
    rw [abs_le] at hb
    have h1 := Real.pi_gt_d20
    push_cast at hb
    norm_num at hb h1
    linarith [hb.1]

/-- C2, amended.  For every circle of radius `r` with `|r| ≤ 4` (any centre), an accumulator
whose running sum is `0` reports, after one visit of that circle, a finite value within `1e-5` of
`r^2 * π`.  In general one `Circle` visit replaces the running sum `s` by
`float(double(s) + double(radius * radius) * M_PI)`, and the centre does not influence the
result. -/
theorem totalArea_visit_circle (r : ℚ) (hr : |r| ≤ 4) (x y rad : FP)
    (acc : TotalAreaAccumulator) :
    FP.within
        ((TotalAreaAccumulator.ctor (.fin 0)).visitShapeCircle
          (Circle.ctor x y (.fin r))).getTotalArea
        ((r : ℝ) ^ 2 * Real.pi) (1 / 100000) ∧
    (acc.visitShapeCircle (Circle.ctor x y rad)).getTotalArea
        = FP.toFloat (add64 acc.getTotalArea (mul64 (mul32 rad rad) M_PI)) ∧
    acc.visitShapeCircle (Circle.ctor x y rad)
        = acc.visitShapeCircle (Circle.ctor (.fin 0) (.fin 0) rad) := by
  refine ⟨?_, rfl, rfl⟩
  have hrr : |r * r| ≤ (2 : ℚ) ^ (4 : ℤ) :=
    calc |r * r| = |r| * |r| := abs_mul r r
      _ ≤ 4 * 4 := mul_le_mul hr hr (abs_nonneg r) (by norm_num)
      _ = (2 : ℚ) ^ (4 : ℤ) := by norm_num
  obtain ⟨a, ha, ha1, ha2⟩ := roundTo_bound 24 (-126) 127 4 (by norm_num) (by norm_num)
    (by norm_num) (r * r) hrr
  have haP : |a * (884279719003555 / 281474976710656)| ≤ (2 : ℚ) ^ (6 : ℤ) :=
    calc |a * (884279719003555 / 281474976710656)|
        = |a| * (884279719003555 / 281474976710656) := by
          rw [abs_mul, abs_of_pos (by norm_num : (0 : ℚ) < 884279719003555 / 281474976710656)]
      _ ≤ (2 : ℚ) ^ (4 : ℤ) * 4 := mul_le_mul ha2 (by norm_num) (by norm_num) (by norm_num)
      _ = (2 : ℚ) ^ (6 : ℤ) := by norm_num
  obtain ⟨b, hb, hb1, hb2⟩ := roundTo_bound 53 (-1022) 1023 6 (by norm_num) (by norm_num)
    (by norm_num) (a * (884279719003555 / 281474976710656)) haP
  have h0b : |0 + b| ≤ (2 : ℚ) ^ (6 : ℤ) := by rw [zero_add]; exact hb2
  obtain ⟨c, hc, hc1, hc2⟩ := roundTo_bound 53 (-1022) 1023 6 (by norm_num) (by norm_num)
    (by norm_num) (0 + b) h0b
  obtain ⟨d, hd, hd1, _⟩ := roundTo_bound 24 (-126) 127 6 (by norm_num) (by norm_num)
    (by norm_num) c hc2
  have hval : ((TotalAreaAccumulator.ctor (.fin 0)).visitShapeCircle
      (Circle.ctor x y (.fin r))).getTotalArea = .fin d := by
    simp only [TotalAreaAccumulator.visitShapeCircle, TotalAreaAccumulator.getTotalArea,
      TotalAreaAccumulator.ctor, Circle.ctor, Circle.getRadius, mul32, mul64, add64, FP.mul,
      M_PI_eq]
    rw [show round32 (r * r) = FP.fin a from ha]
    simp only [FP.mul]
    rw [show round64 (a * (884279719003555 / 281474976710656)) = FP.fin b from hb]
    simp only [FP.add]
    rw [show round64 (0 + b) = FP.fin c from hc]
    simp only [FP.toFloat]
    exact hd
  refine ⟨d, hval, ?_⟩
  obtain ⟨hp1, hp2⟩ := M_PI_near_pi
  have hs : |((r : ℝ) ^ 2) * (((884279719003555 / 281474976710656 : ℚ) : ℝ) - Real.pi)|
      ≤ 16 * (2 / 10 ^ 16) := by
    rw [abs_mul]
    have hr' : |(r : ℝ)| ≤ 4 := by exact_mod_cast hr
    have h1 : |(r : ℝ) ^ 2| ≤ 16 := by
      rw [abs_pow, pow_two]
      calc |(r : ℝ)| * |(r : ℝ)| ≤ 4 * 4 := mul_le_mul hr' hr' (abs_nonneg _) (by norm_num)
        _ = 16 := by norm_num
    have h2 : |((884279719003555 / 281474976710656 : ℚ) : ℝ) - Real.pi| ≤ 2 / 10 ^ 16 := by
      rw [abs_le]; constructor <;> linarith
    exact mul_le_mul h1 h2 (abs_nonneg _) (by norm_num)
  have ha1' : |(a : ℝ) - (r : ℝ) ^ 2| ≤ 1 / 1048576 := by
    have : |a - r * r| ≤ 1 / 1048576 := by norm_num at ha1 ⊢; exact ha1
    have h := (Rat.cast_le (K := ℝ)).mpr this
    rw [Rat.cast_abs] at h
    push_cast at h
    rw [pow_two]
    norm_num at h ⊢
    exact h
  have hb1' : |(b : ℝ) - (a : ℝ) * ((884279719003555 / 281474976710656 : ℚ) : ℝ)|
      ≤ 1 / 140737488355328 := by
    have : |b - a * (884279719003555 / 281474976710656)| ≤ 1 / 140737488355328 := by
      norm_num at hb1 ⊢; exact hb1
    have h := (Rat.cast_le (K := ℝ)).mpr this
    rw [Rat.cast_abs] at h
    push_cast at h ⊢
    norm_num at h ⊢
    exact h
  have hc1' : |(c : ℝ) - (b : ℝ)| ≤ 1 / 140737488355328 := by
    have : |c - b| ≤ 1 / 140737488355328 := by
      rw [zero_add] at hc1; norm_num at hc1 ⊢; exact hc1
    have h := (Rat.cast_le (K := ℝ)).mpr this
    rw [Rat.cast_abs] at h
    push_cast at h
    norm_num at h ⊢
    exact h
  have hd1' : |(d : ℝ) - (c : ℝ)| ≤ 1 / 262144 := by
    have : |d - c| ≤ 1 / 262144 := by norm_num at hd1 ⊢; exact hd1
    have h := (Rat.cast_le (K := ℝ)).mpr this
    rw [Rat.cast_abs] at h
    push_cast at h
    norm_num at h ⊢
    exact h
  rw [abs_le] at hs ha1' hb1' hc1' hd1' ⊢
  push_cast at hs hb1'
  constructor <;> nlinarith [hs.1, hs.2, ha1'.1, ha1'.2, hb1'.1, hb1'.2, hc1'.1, hc1'.2,
    hd1'.1, hd1'.2]

/-- Witness of `totalArea_visit_circle` at the circle of `main`. -/
theorem totalArea_visit_circle_witness :
    |(1 / 2 : ℚ)| ≤ 4 ∧
    (FP.within
        ((TotalAreaAccumulator.ctor (.fin 0)).visitShapeCircle
          (Circle.ctor (.fin (-1)) (.fin 2) (.fin (1 / 2)))).getTotalArea
        (((1 / 2 : ℚ) : ℝ) ^ 2 * Real.pi) (1 / 100000) ∧
    ((TotalAreaAccumulator.ctor (.fin 1)).visitShapeCircle
          (Circle.ctor (.fin (-1)) (.fin 2) (.fin (1 / 2)))).getTotalArea
        = FP.toFloat (add64 (TotalAreaAccumulator.ctor (.fin 1)).getTotalArea
            (mul64 (mul32 (.fin (1 / 2)) (.fin (1 / 2))) M_PI)) ∧
    (TotalAreaAccumulator.ctor (.fin 1)).visitShapeCircle
          (Circle.ctor (.fin (-1)) (.fin 2) (.fin (1 / 2)))
        = (TotalAreaAccumulator.ctor (.fin 1)).visitShapeCircle
            (Circle.ctor (.fin 0) (.fin 0) (.fin (1 / 2)))) :=
  ⟨by norm_num [abs_le],
    totalArea_visit_circle (1 / 2) (by norm_num [abs_le]) (.fin (-1)) (.fin 2) (.fin (1 / 2))
      (TotalAreaAccumulator.ctor (.fin 1))⟩

/-! ## `TotalAreaAccumulator`: sequences of shapes -/

/-- C4, counterexample.  From a running sum of `0`, visiting the circle of radius `0.5` and then
the unit square leaves `7488503 / 2^22`, while visiting the unit square and then the circle
leaves `14977005 / 2^23`: the total depends on the order.  So it does for the circles of radius
`0.5` and `1`; for the three squares of areas `1e8`, `-1e8` and `1`; and for the squares of areas
`2^24` and `1` when the running sum starts from `1`.  All the members are `float`s. -/
theorem totalArea_order_dependent :
    ((FP.fin (1 / 2)).isFloat = true ∧ (FP.fin 1).isFloat = true ∧ (FP.fin 0).isFloat = true ∧
      (FP.fin 10000).isFloat = true ∧ (FP.fin (-10000)).isFloat = true ∧
      (FP.fin 4096).isFloat = true) ∧
    ((TotalAreaAccumulator.ctor (.fin 0)).visitAll
        [.circle (Circle.ctor (.fin 0) (.fin 0) (.fin (1 / 2))),
         .square (Square.ctor (.fin 0) (.fin 0) (.fin 1) (.fin 1))]).getTotalArea
      = .fin (7488503 / 4194304) ∧
    ((TotalAreaAccumulator.ctor (.fin 0)).visitAll
        [.square (Square.ctor (.fin 0) (.fin 0) (.fin 1) (.fin 1)),
         .circle (Circle.ctor (.fin 0) (.fin 0) (.fin (1 / 2)))]).getTotalArea
      = .fin (14977005 / 8388608) ∧
    ((TotalAreaAccumulator.ctor (.fin 0)).visitAll
        [.circle (Circle.ctor (.fin 0) (.fin 0) (.fin (1 / 2))),
         .square (Square.ctor (.fin 0) (.fin 0) (.fin 1) (.fin 1))]).getTotalArea
      ≠ ((TotalAreaAccumulator.ctor (.fin 0)).visitAll
        [.square (Square.ctor (.fin 0) (.fin 0) (.fin 1) (.fin 1)),
         .circle (Circle.ctor (.fin 0) (.fin 0) (.fin (1 / 2)))]).getTotalArea ∧
    ((TotalAreaAccumulator.ctor (.fin 0)).visitAll
        [.circle (Circle.ctor (.fin 0) (.fin 0) (.fin (1 / 2))),
         .circle (Circle.ctor (.fin 0) (.fin 0) (.fin 1))]).getTotalArea
      ≠ ((TotalAreaAccumulator.ctor (.fin 0)).visitAll
        [.circle (Circle.ctor (.fin 0) (.fin 0) (.fin 1)),
         .circle (Circle.ctor (.fin 0) (.fin 0) (.fin (1 / 2)))]).getTotalArea ∧
    ((TotalAreaAccumulator.ctor (.fin 0)).visitAll
        [.square (Square.ctor (.fin 0) (.fin 0) (.fin 10000) (.fin 10000)),
         .square (Square.ctor (.fin 0) (.fin 0) (.fin (-10000)) (.fin 10000)),
         .square (Square.ctor (.fin 0) (.fin 0) (.fin 1) (.fin 1))]).getTotalArea = .fin 1 ∧
    ((TotalAreaAccumulator.ctor (.fin 0)).visitAll
        [.square (Square.ctor (.fin 0) (.fin 0) (.fin 1) (.fin 1)),
         .square (Square.ctor (.fin 0) (.fin 0) (.fin 10000) (.fin 10000)),
         .square (Square.ctor (.fin 0) (.fin 0) (.fin (-10000)) (.fin 10000))]).getTotalArea
      = .fin 0 ∧
    ((TotalAreaAccumulator.ctor (.fin 1)).visitAll
        [.square (Square.ctor (.fin 0) (.fin 0) (.fin 4096) (.fin 4096)),
         .square (Square.ctor (.fin 0) (.fin 0) (.fin 1) (.fin 1))]).getTotalArea
      = .fin 16777216 ∧
    ((TotalAreaAccumulator.ctor (.fin 1)).visitAll
        [.square (Square.ctor (.fin 0) (.fin 0) (.fin 1) (.fin 1)),
         .square (Square.ctor (.fin 0) (.fin 0) (.fin 4096) (.fin 4096))]).getTotalArea
      = .fin 16777218 := by
  refine ⟨⟨?_, ?_, ?_, ?_, ?_, ?_⟩, ?_, ?_, ?_, ?_, ?_, ?_, ?_, ?_⟩ <;> decide!

theorem visitAll_squares (sqs : List Square) : ∀ start : FP,
    ((TotalAreaAccumulator.ctor start).visitAll (sqs.map ShapePtr.square)).getTotalArea
      = sqs.foldl (fun t sq => add32 t (mul32 sq.getWidth sq.getHeight)) start := by
  induction sqs with
  | nil => intro start; rfl
  | cons sq rest ih =>
    intro start
    exact ih (add32 start (mul32 sq.getWidth sq.getHeight))

/-- C4, amended.  The accumulator adds the areas one at a time, from left to right, each sum
rounded to `float`: for every list of squares and every starting sum the final total is the
starting sum with each `width * height` added in turn, and a longer sequence continues from the
total of its prefix.  For two squares `A` and `B` and a running sum of `0`, visiting `A` then `B`
reports `area(A) + area(B)` and visiting `B` then `A` reports the same value. -/
theorem totalArea_accumulation (A B : Square) (start : FP) (sqs : List Square)
    (acc : TotalAreaAccumulator) (l1 l2 : List ShapePtr) :
    ((TotalAreaAccumulator.ctor (.fin 0)).visitAll [.square A, .square B]).getTotalArea
      = add32 (mul32 A.getWidth A.getHeight) (mul32 B.getWidth B.getHeight) ∧
    ((TotalAreaAccumulator.ctor (.fin 0)).visitAll [.square B, .square A]).getTotalArea
      = ((TotalAreaAccumulator.ctor (.fin 0)).visitAll [.square A, .square B]).getTotalArea ∧
    ((TotalAreaAccumulator.ctor start).visitAll (sqs.map ShapePtr.square)).getTotalArea
      = sqs.foldl (fun t sq => add32 t (mul32 sq.getWidth sq.getHeight)) start ∧
    acc.visitAll (l1 ++ l2) = (acc.visitAll l1).visitAll l2 := by
  have hAB : ∀ A B : Square,
      ((TotalAreaAccumulator.ctor (.fin 0)).visitAll [.square A, .square B]).getTotalArea
        = add32 (mul32 A.getWidth A.getHeight) (mul32 B.getWidth B.getHeight) := by
    intro A B
    show add32 (add32 (.fin 0) (mul32 A.getWidth A.getHeight)) (mul32 B.getWidth B.getHeight) = _
    rw [add32_zero_left _ (isFloat_mul32 _ _)]
  refine ⟨hAB A B, ?_, visitAll_squares sqs start, ?_⟩
  · rw [hAB A B, hAB B A, add32_comm]
  · exact List.foldl_append _ _ _ _

/-! ## `BoundingBoxCalculator`: what a new calculator reports -/

/-- C5.  A newly constructed calculator holds indeterminate members.  When the four members
happen to be `0` (zero-filled storage), one visit of the circle `(10, 10, 1)` leaves
`getLeft() = 0` and `getTop() = 0`, whereas `x - r = y - r = 9`; and after the first circle
`(-1, 2, 0.5)` of `main` it reports `right = 0` and `top = 0` instead of `-0.5` and `1.5`. -/
theorem boundingBox_new_calculator_zero_storage :
    ((BoundingBoxCalculator.ctor (.fin 0) (.fin 0) (.fin 0) (.fin 0)).visitShapeCircle
        (Circle.ctor (.fin 10) (.fin 10) (.fin 1))).getLeft = .fin 0 ∧
    ((BoundingBoxCalculator.ctor (.fin 0) (.fin 0) (.fin 0) (.fin 0)).visitShapeCircle
        (Circle.ctor (.fin 10) (.fin 10) (.fin 1))).getTop = .fin 0 ∧
    sub32 (.fin 10) (.fin 1) = .fin 9 ∧
    ((BoundingBoxCalculator.ctor (.fin 0) (.fin 0) (.fin 0) (.fin 0)).visitShapeCircle
        (Circle.ctor (.fin (-1)) (.fin 2) (.fin (1 / 2)))).getRight = .fin 0 ∧
    ((BoundingBoxCalculator.ctor (.fin 0) (.fin 0) (.fin 0) (.fin 0)).visitShapeCircle
        (Circle.ctor (.fin (-1)) (.fin 2) (.fin (1 / 2)))).getTop = .fin 0 ∧
    add32 (.fin (-1)) (.fin (1 / 2)) = .fin (-1 / 2) ∧
    sub32 (.fin 2) (.fin (1 / 2)) = .fin (3 / 2) := by
  refine ⟨?_, ?_, ?_, ?_, ?_, ?_, ?_⟩ <;> decide!

theorem stdMin_posInf (v : FP) (h : v.isNum = true) : stdMin (.inf false) v = v := by
  cases v with
  | nan => simp [FP.isNum] at h
  | inf s => cases s <;> rfl
  | fin q => rfl

theorem stdMax_negInf (v : FP) (h : v.isNum = true) : stdMax (.inf true) v = v := by
  cases v with
  | nan => simp [FP.isNum] at h
  | inf s => cases s <;> rfl
  | fin q => rfl

/-- What C5 describes does hold for a calculator whose members start at the identities of `min`
and `max` (`left = top = +inf`, `right = bottom = -inf`): a single circle with finite members
gives `left = x - r`, `right = x + r`, `top = y - r`, `bottom = y + r`, and the circles `(0, 0, 1)`
then `(10, 10, 1)` give `left = -1`, `right = 11`, `top = -1`, `bottom = 11`. -/
theorem boundingBox_circles_from_empty_box (x y r : ℚ) :
    ((BoundingBoxCalculator.ctor (.inf true) (.inf false) (.inf true) (.inf false)).visitShapeCircle
        (Circle.ctor (.fin x) (.fin y) (.fin r)))
      = { bottom := add32 (.fin y) (.fin r), left := sub32 (.fin x) (.fin r),
          right := add32 (.fin x) (.fin r), top := sub32 (.fin y) (.fin r) } ∧
    (((BoundingBoxCalculator.ctor (.inf true) (.inf false) (.inf true) (.inf false)).visitShapeCircle
        (Circle.ctor (.fin 0) (.fin 0) (.fin 1))).visitShapeCircle
        (Circle.ctor (.fin 10) (.fin 10) (.fin 1)))
      = { bottom := .fin 11, left := .fin (-1), right := .fin 11, top := .fin (-1) } := by
  constructor
  · simp only [BoundingBoxCalculator.visitShapeCircle, BoundingBoxCalculator.ctor, Circle.ctor,
      Circle.getX, Circle.getY, Circle.getRadius, Shape.getX, Shape.getY, Shape.ctor]
    rw [stdMax_negInf _ (isNum_add32_fin y (.fin r) rfl),
      stdMax_negInf _ (isNum_add32_fin x (.fin r) rfl),
      stdMin_posInf _ (isNum_sub32_fin x (.fin r) rfl),
      stdMin_posInf _ (isNum_sub32_fin y (.fin r) rfl)]
  · decide!

/-! ## `BoundingBoxCalculator`: containment -/

/-- C8, counterexample.  With the prior box `(0, 0, 0, 0)` and the square of centre `(0, 0)`,
width `4` and height `2` (non-negative dimensions), the visit leaves `left = -1`, which is not
`<= x - w/2 = -2`: the box does not contain the square's own bounding box.  With the same prior
box and the circle of centre `(+inf, 0)` and radius `+inf`, `x - r` is `nan`, the visit leaves
`left = 0`, and `left' <= x - r` is false as every comparison with `nan` is. -/
theorem boundingBox_misses_shape_box :
    ((BoundingBoxCalculator.ctor (.fin 0) (.fin 0) (.fin 0) (.fin 0)).visitShapeSquare
        (Square.ctor (.fin 0) (.fin 0) (.fin 4) (.fin 2))).getLeft = .fin (-1) ∧
    sub32 (.fin 0) (div32 (.fin 4) two) = .fin (-2) ∧
    FP.le ((BoundingBoxCalculator.ctor (.fin 0) (.fin 0) (.fin 0) (.fin 0)).visitShapeSquare
        (Square.ctor (.fin 0) (.fin 0) (.fin 4) (.fin 2))).getLeft
      (sub32 (.fin 0) (div32 (.fin 4) two)) = false ∧
    FP.le (.fin 0) (.fin 4) = true ∧ FP.le (.fin 0) (.fin 2) = true ∧
    ((BoundingBoxCalculator.ctor (.fin 0) (.fin 0) (.fin 0) (.fin 0)).visitShapeCircle
        (Circle.ctor (.inf false) (.fin 0) (.inf false))).getLeft = .fin 0 ∧
    sub32 (.inf false) (.inf false) = .nan ∧
    FP.le ((BoundingBoxCalculator.ctor (.fin 0) (.fin 0) (.fin 0) (.fin 0)).visitShapeCircle
        (Circle.ctor (.inf false) (.fin 0) (.inf false))).getLeft
      (sub32 (.inf false) (.inf false)) = false ∧
    FP.le (.fin 0) (.inf false) = true := by
  refine ⟨?_, ?_, ?_, ?_, ?_, ?_, ?_, ?_, ?_⟩ <;> decide!

/-- C8, amended.  For every prior state none of whose members is `nan` and every shape with
finite members, after the visit the box contains the prior box (`left' <= left`,
`right' >= right`, `top' <= top`, `bottom' >= bottom`); for a circle it contains the circle's own
bounding box (`left' <= x - r`, `right' >= x + r`, `top' <= y - r`, `bottom' >= y + r`); for a
square `right' >= x + w/2` and `top' <= y - h/2`, and when `w = h` also `left' <= x - w/2` and
`bottom' >= y + h/2`. -/
theorem boundingBox_contains (b : BoundingBoxCalculator) (x y r w h : ℚ)
    (hbottom : b.bottom.isNum = true) (hleft : b.left.isNum = true)
    (hright : b.right.isNum = true) (htop : b.top.isNum = true) :
    (FP.le (b.visitShapeCircle (Circle.ctor (.fin x) (.fin y) (.fin r))).getLeft b.getLeft = true ∧
     FP.le b.getRight (b.visitShapeCircle (Circle.ctor (.fin x) (.fin y) (.fin r))).getRight = true ∧
     FP.le (b.visitShapeCircle (Circle.ctor (.fin x) (.fin y) (.fin r))).getTop b.getTop = true ∧
     FP.le b.getBottom
        (b.visitShapeCircle (Circle.ctor (.fin x) (.fin y) (.fin r))).getBottom = true) ∧
    (FP.le (b.visitShapeCircle (Circle.ctor (.fin x) (.fin y) (.fin r))).getLeft
        (sub32 (.fin x) (.fin r)) = true ∧
     FP.le (add32 (.fin x) (.fin r))
        (b.visitShapeCircle (Circle.ctor (.fin x) (.fin y) (.fin r))).getRight = true ∧
     FP.le (b.visitShapeCircle (Circle.ctor (.fin x) (.fin y) (.fin r))).getTop
        (sub32 (.fin y) (.fin r)) = true ∧
     FP.le (add32 (.fin y) (.fin r))
        (b.visitShapeCircle (Circle.ctor (.fin x) (.fin y) (.fin r))).getBottom = true) ∧
    (FP.le (b.visitShapeSquare (Square.ctor (.fin x) (.fin y) (.fin w) (.fin h))).getLeft
        b.getLeft = true ∧
     FP.le b.getRight
        (b.visitShapeSquare (Square.ctor (.fin x) (.fin y) (.fin w) (.fin h))).getRight = true ∧
     FP.le (b.visitShapeSquare (Square.ctor (.fin x) (.fin y) (.fin w) (.fin h))).getTop
        b.getTop = true ∧
     FP.le b.getBottom
        (b.visitShapeSquare (Square.ctor (.fin x) (.fin y) (.fin w) (.fin h))).getBottom = true) ∧
    (FP.le (add32 (.fin x) (div32 (.fin w) two))
        (b.visitShapeSquare (Square.ctor (.fin x) (.fin y) (.fin w) (.fin h))).getRight = true ∧
     FP.le (b.visitShapeSquare (Square.ctor (.fin x) (.fin y) (.fin w) (.fin h))).getTop
        (sub32 (.fin y) (div32 (.fin h) two)) = true) ∧
    (w = h →
     FP.le (b.visitShapeSquare (Square.ctor (.fin x) (.fin y) (.fin w) (.fin h))).getLeft
        (sub32 (.fin x) (div32 (.fin w) two)) = true ∧
     FP.le (add32 (.fin y) (div32 (.fin h) two))
        (b.visitShapeSquare (Square.ctor (.fin x) (.fin y) (.fin w) (.fin h))).getBottom = true) := by
  have hw := isNum_div32_two w
  have hh := isNum_div32_two h
  refine ⟨⟨?_, ?_, ?_, ?_⟩, ⟨?_, ?_, ?_, ?_⟩, ⟨?_, ?_, ?_, ?_⟩, ⟨?_, ?_⟩, ?_⟩
  · exact stdMin_le_left _ _ hleft
  · exact le_stdMax_left _ _ hright
  · exact stdMin_le_left _ _ htop
  · exact le_stdMax_left _ _ hbottom
  · exact stdMin_le_right _ _ hleft (isNum_sub32_fin x _ rfl)
  · exact le_stdMax_right _ _ hright (isNum_add32_fin x _ rfl)
  · exact stdMin_le_right _ _ htop (isNum_sub32_fin y _ rfl)
  · exact le_stdMax_right _ _ hbottom (isNum_add32_fin y _ rfl)
  · exact stdMin_le_left _ _ hleft
  · exact le_stdMax_left _ _ hright
  · exact stdMin_le_left _ _ htop
  · exact le_stdMax_left _ _ hbottom
  · exact le_stdMax_right _ _ hright (isNum_add32_fin x _ hw)
  · exact stdMin_le_right _ _ htop (isNum_sub32_fin y _ hh)
  · intro hwh
    subst hwh
    exact ⟨stdMin_le_right _ _ hleft (isNum_sub32_fin x _ hw),
      le_stdMax_right _ _ hbottom (isNum_add32_fin y _ hw)⟩

/-- Witness of `boundingBox_contains`: the prior box `(0, 0, 0, 0)` with the circle
`(10, 10, 1)` and the square of centre `(10, 10)`, width `2` and height `2`. -/
theorem boundingBox_contains_witness :
    (BoundingBoxCalculator.ctor (.fin 0) (.fin 0) (.fin 0) (.fin 0)).bottom.isNum = true ∧
    (BoundingBoxCalculator.ctor (.fin 0) (.fin 0) (.fin 0) (.fin 0)).left.isNum = true ∧
    (BoundingBoxCalculator.ctor (.fin 0) (.fin 0) (.fin 0) (.fin 0)).right.isNum = true ∧
    (BoundingBoxCalculator.ctor (.fin 0) (.fin 0) (.fin 0) (.fin 0)).top.isNum = true ∧
    (2 : ℚ) = 2 ∧
    FP.le (add32 (.fin 10) (.fin 1))
      ((BoundingBoxCalculator.ctor (.fin 0) (.fin 0) (.fin 0) (.fin 0)).visitShapeCircle
        (Circle.ctor (.fin 10) (.fin 10) (.fin 1))).getRight = true ∧
    FP.le ((BoundingBoxCalculator.ctor (.fin 0) (.fin 0) (.fin 0) (.fin 0)).visitShapeSquare
        (Square.ctor (.fin 10) (.fin 10) (.fin 2) (.fin 2))).getLeft
      (sub32 (.fin 10) (div32 (.fin 2) two)) = true :=
  ⟨rfl, rfl, rfl, rfl, rfl,
    (boundingBox_contains (BoundingBoxCalculator.ctor (.fin 0) (.fin 0) (.fin 0) (.fin 0))
      10 10 1 2 2 rfl rfl rfl rfl).2.1.2.1,
    ((boundingBox_contains (BoundingBoxCalculator.ctor (.fin 0) (.fin 0) (.fin 0) (.fin 0))
      10 10 1 2 2 rfl rfl rfl rfl).2.2.2.2 rfl).1⟩

/-! ## `ShapePrinter` -/

/-- C9, counterexample.  For the circle built with `(x = -1, y = 2, radius = 0.5)` the printer
emits `Circle { x: -1, y: 2, radius: 0.5 } ` followed by a newline: there is a space between the
closing brace and the end of the line, so the line is not `Circle { x: -1, y: 2, radius: 0.5 }`. -/
theorem printer_line_has_trailing_space :
    ShapePrinter.visitShapeCircle renderFloat
        (Circle.ctor (FP.neg (round32 1)) (round32 2) (round32 (5 / 10))) ""
      = "Circle \x7b x: -1, y: 2, radius: 0.5 \x7d \n" ∧
    ShapePrinter.visitShapeCircle renderFloat
        (Circle.ctor (FP.neg (round32 1)) (round32 2) (round32 (5 / 10))) ""
      ≠ "Circle \x7b x: -1, y: 2, radius: 0.5 \x7d\n" := by
  constructor <;> decide!

/-- C9, amended.  For every circle the `Circle` handler appends to the stream exactly
`Circle { x: <x>, y: <y>, radius: <radius> } ` and a newline, and for every square the `Square`
handler appends exactly `Square { x: <x>, y: <y>, width: <width>, height: <height> } ` and a
newline, where each `<...>` is the stream's rendering of the getter's value and one space
separates the closing brace from the end of the line; what the stream held before is kept.  For
the circle built with `(x = -1, y = 2, radius = 0.5)` and the default formatting the line is
`Circle { x: -1, y: 2, radius: 0.5 } `. -/
theorem printer_output (render : FP → String) (c : Circle) (s : Square) (cout : String) :
    ShapePrinter.visitShapeCircle render c cout
      = cout ++ ("Circle \x7b x: " ++ (render c.getX ++ (", y: " ++ (render c.getY
          ++ (", radius: " ++ (render c.getRadius ++ " \x7d \n")))))) ∧
    ShapePrinter.visitShapeSquare render s cout
      = cout ++ ("Square \x7b x: " ++ (render s.getX ++ (", y: " ++ (render s.getY
          ++ (", width: " ++ (render s.getWidth ++ (", height: " ++ (render s.getHeight
          ++ " \x7d \n")))))))) ∧
    ShapePrinter.visitShapeCircle renderFloat
        (Circle.ctor (FP.neg (round32 1)) (round32 2) (round32 (5 / 10))) cout
      = cout ++ "Circle \x7b x: -1, y: 2, radius: 0.5 \x7d \n" := by
  have e1 : "Circle \x7b x: " = "Circle " ++ "\x7b x: " := by decide
  have e2 : " \x7d \n" = " \x7d " ++ "\n" := by decide
  have e3 : "Square \x7b x: " = "Square " ++ "\x7b x: " := by decide
  have hc : ∀ (render : FP → String) (c : Circle), ShapePrinter.visitShapeCircle render c cout
      = cout ++ ("Circle \x7b x: " ++ (render c.getX ++ (", y: " ++ (render c.getY
          ++ (", radius: " ++ (render c.getRadius ++ " \x7d \n")))))) := by
    intro render c
    rw [e1, e2]
    simp only [ShapePrinter.visitShapeCircle, String.append_assoc]
  refine ⟨hc render c, ?_, ?_⟩
  · rw [e3, e2]
    simp only [ShapePrinter.visitShapeSquare, String.append_assoc]
  · rw [hc]
    congr 1
    decide!

/-! ## `main` -/

theorem main_accumulator (render : FP → String) (b l r t a : FP) :
    (main render b l r t a).2.accumulator = (TotalAreaAccumulator.ctor a).visitAll mainShapes :=
  rfl

/-- C10.  In `main` the accumulator is default-constructed, so `totalArea` starts from whatever
its storage holds.  When that is `1`, `getTotalArea()` is `1.7854` after the first shape and
`5.8654` after both, more than `1e-4` away from `0.5^2 * π + 1.2 * 3.4`.  Only when the storage
holds `0` does it report `0.785398...` after the circle and `4.865398...` after both shapes, that
is `0.7854` and `4.8654` to four decimal places, within `1e-6` of `0.5^2 * π + 1.2 * 3.4`. -/
theorem main_total_area (render : FP → String) (b l r t : FP) :
    (main render b l r t (.fin 1)).2.accumulator.getTotalArea = .fin (1537579 / 262144) ∧
    ¬ FP.within (main render b l r t (.fin 1)).2.accumulator.getTotalArea
        ((1 / 2 : ℝ) ^ 2 * Real.pi + 12 / 10 * (34 / 10)) (1 / 10000) ∧
    (mainBody render (mainInit b l r t (.fin 1))
        (.circle (Circle.ctor (FP.neg (round32 1)) (round32 2) (round32 (5 / 10))))
      ).accumulator.getTotalArea = .fin (14977005 / 8388608) ∧
    (main render b l r t (.fin 0)).2.accumulator.getTotalArea = .fin (1275435 / 262144) ∧
    FP.within (main render b l r t (.fin 0)).2.accumulator.getTotalArea
        ((1 / 2 : ℝ) ^ 2 * Real.pi + 12 / 10 * (34 / 10)) (1 / 1000000) ∧
    |(1275435 / 262144 : ℚ) - 48654 / 10000| < 1 / 20000 ∧
    (mainBody render (mainInit b l r t (.fin 0))
        (.circle (Circle.ctor (FP.neg (round32 1)) (round32 2) (round32 (5 / 10))))
      ).accumulator.getTotalArea = .fin (13176795 / 16777216) ∧
    |(13176795 / 16777216 : ℚ) - 7854 / 10000| < 1 / 20000 := by
  have h1 : ((TotalAreaAccumulator.ctor (.fin 1)).visitAll mainShapes).getTotalArea
      = .fin (1537579 / 262144) := by decide!
  have h0 : ((TotalAreaAccumulator.ctor (.fin 0)).visitAll mainShapes).getTotalArea
      = .fin (1275435 / 262144) := by decide!
  have hpi1 := Real.pi_gt_d20
  have hpi2 := Real.pi_lt_d20
  refine ⟨?_, ?_, ?_, ?_, ?_, ?_, ?_, ?_⟩
  · rw [main_accumulator]; exact h1
  · rw [main_accumulator, h1]
    rintro ⟨q, hq, hb⟩
    injection hq with hq
    rw [← hq, abs_le] at hb
    push_cast at hb
    norm_num at hb hpi1
    linarith [hb.2]
  · show ((TotalAreaAccumulator.ctor (.fin 1)).visitShapeCircle
        (Circle.ctor (FP.neg (round32 1)) (round32 2) (round32 (5 / 10)))).getTotalArea = _
    decide!
  · rw [main_accumulator]; exact h0
  · rw [main_accumulator, h0]
    refine ⟨_, rfl, ?_⟩
    rw [abs_le]
    push_cast
    norm_num at hpi1 hpi2 ⊢
    constructor <;> linarith
  · rw [abs_lt]; constructor <;> norm_num
  · show ((TotalAreaAccumulator.ctor (.fin 0)).visitShapeCircle
        (Circle.ctor (FP.neg (round32 1)) (round32 2) (round32 (5 / 10)))).getTotalArea = _
    decide!
  · rw [abs_lt]; constructor <;> norm_num

/-! ## Construction and accessors -/

/-- C11. Construction never fails and never alters its inputs: for all values `x`, `y`, `r`
(negative ones, infinities and `nan` included) `Circle(x, y, r)` is built and `getX() = x`,
`getY() = y`, `getRadius() = r`; for all `x`, `y`, `w`, `h`, `Square(x, y, w, h)` is built and
`getX() = x`, `getY() = y`, `getWidth() = w`, `getHeight() = h`.  Every `accept` call, on each of
the three visitors in any state, returns with a resulting state (there is no error result), and
the shape, which is passed as a constant, has the same getter values afterwards. -/
theorem construction_and_getters (x y r w h : FP) (render : FP → String)
    (calculator : BoundingBoxCalculator) (accumulator : TotalAreaAccumulator) (cout : String) :
    (∃ c : Circle, Circle.ctor x y r = c ∧ c.getX = x ∧ c.getY = y ∧ c.getRadius = r ∧
      (∃ st, c.accept BoundingBoxCalculator.visitor calculator = st) ∧
      (∃ st, c.accept TotalAreaAccumulator.visitor accumulator = st) ∧
      (∃ st, c.accept (ShapePrinter.visitor render) cout = st) ∧
      (∃ st, (ShapePtr.circle c).accept BoundingBoxCalculator.visitor calculator = st) ∧
      c = Circle.ctor x y r) ∧
    (∃ s : Square, Square.ctor x y w h = s ∧ s.getX = x ∧ s.getY = y ∧ s.getWidth = w ∧
      s.getHeight = h ∧
      (∃ st, s.accept BoundingBoxCalculator.visitor calculator = st) ∧
      (∃ st, s.accept TotalAreaAccumulator.visitor accumulator = st) ∧
      (∃ st, s.accept (ShapePrinter.visitor render) cout = st) ∧
      (∃ st, (ShapePtr.square s).accept BoundingBoxCalculator.visitor calculator = st) ∧
      s = Square.ctor x y w h) ∧
    (Circle.ctor (.fin (-1)) .nan (.inf true)).getRadius = .inf true ∧
    (Square.ctor (.inf false) (.fin 0) (.fin (-3)) .nan).getWidth = .fin (-3) :=
  ⟨⟨_, rfl, rfl, rfl, rfl, ⟨_, rfl⟩, ⟨_, rfl⟩, ⟨_, rfl⟩, ⟨_, rfl⟩, rfl⟩,
   ⟨_, rfl, rfl, rfl, rfl, rfl, ⟨_, rfl⟩, ⟨_, rfl⟩, ⟨_, rfl⟩, ⟨_, rfl⟩, rfl⟩, rfl, rfl⟩

/-! ## `TotalAreaAccumulator`: what a new accumulator reports -/

/-- C12.  A newly constructed accumulator holds an indeterminate `totalArea`: `getTotalArea()`
returns whatever its storage holds.  When that is `1` it reports `1`, not `0`; it reports `0`
only when the storage happens to hold `0`. -/
theorem totalArea_new_accumulator (v : FP) :
    (TotalAreaAccumulator.ctor v).getTotalArea = v ∧
    (TotalAreaAccumulator.ctor (.fin 1)).getTotalArea = .fin 1 ∧
    (TotalAreaAccumulator.ctor (.fin 1)).getTotalArea ≠ .fin 0 ∧
    (FP.fin 1).isFloat = true ∧
    (main renderFloat (.fin 0) (.fin 0) (.fin 0) (.fin 0) (.fin 1)).2.accumulator.getTotalArea
      ≠ (main renderFloat (.fin 0) (.fin 0) (.fin 0) (.fin 0) (.fin 0)).2.accumulator.getTotalArea := by
  refine ⟨rfl, rfl, ?_, ?_, ?_⟩ <;> decide!

/-! ## `BoundingBoxCalculator`: idempotence and commutation -/

theorem lt_irrefl_fp (a : FP) : FP.lt a a = false := by
  rcases a with _ | (_ | _) | p <;> simp [FP.lt]

theorem stdMin_idem (l v : FP) : stdMin (stdMin l v) v = stdMin l v := by
  unfold stdMin
  by_cases h : FP.lt v l = true
  · simp [h, lt_irrefl_fp]
  · simp [h]

theorem stdMax_idem (l v : FP) : stdMax (stdMax l v) v = stdMax l v := by
  unfold stdMax
  by_cases h : FP.lt l v = true
  · simp [h, lt_irrefl_fp]
  · simp [h]

theorem stdMin_right_comm_fin (p q r : ℚ) :
    stdMin (stdMin (.fin p) (.fin q)) (.fin r) = stdMin (stdMin (.fin p) (.fin r)) (.fin q) := by
  rw [stdMin_fin, stdMin_fin, stdMin_fin, stdMin_fin, min_right_comm]

theorem stdMax_right_comm_fin (p q r : ℚ) :
    stdMax (stdMax (.fin p) (.fin q)) (.fin r) = stdMax (stdMax (.fin p) (.fin r)) (.fin q) := by
  rw [stdMax_fin, stdMax_fin, stdMax_fin, stdMax_fin, sup_right_comm]

theorem stdMin_right_comm (l a b : FP) : stdMin (stdMin l a) b = stdMin (stdMin l b) a := by
  rcases l with _ | (_ | _) | p <;> rcases a with _ | (_ | _) | q <;>
    rcases b with _ | (_ | _) | r <;>
    first
    | rfl
    | exact stdMin_right_comm_fin _ _ _
    | (simp only [stdMin, FP.lt]; simp; done)
    | (simp only [stdMin, FP.lt]; split_ifs <;> simp_all [FP.lt] <;> linarith)

theorem stdMax_right_comm (l a b : FP) : stdMax (stdMax l a) b = stdMax (stdMax l b) a := by
  rcases l with _ | (_ | _) | p <;> rcases a with _ | (_ | _) | q <;>
    rcases b with _ | (_ | _) | r <;>
    first
    | rfl
    | exact stdMax_right_comm_fin _ _ _
    | (simp only [stdMax, FP.lt]; simp; done)
    | (simp only [stdMax, FP.lt]; split_ifs <;> simp_all [FP.lt] <;> linarith)

theorem boundingBox_accept_idem (b : BoundingBoxCalculator) (A : ShapePtr) :
    A.accept BoundingBoxCalculator.visitor (A.accept BoundingBoxCalculator.visitor b)
      = A.accept BoundingBoxCalculator.visitor b := by
  cases A with
  | circle c =>
    simp only [ShapePtr.accept, Circle.accept, BoundingBoxCalculator.visitor,
      BoundingBoxCalculator.visitShapeCircle, stdMin_idem, stdMax_idem]
  | square s =>
    simp only [ShapePtr.accept, Square.accept, BoundingBoxCalculator.visitor,
      BoundingBoxCalculator.visitShapeSquare, stdMin_idem, stdMax_idem]

theorem boundingBox_accept_comm (b : BoundingBoxCalculator) (A B : ShapePtr) :
    B.accept BoundingBoxCalculator.visitor (A.accept BoundingBoxCalculator.visitor b)
      = A.accept BoundingBoxCalculator.visitor (B.accept BoundingBoxCalculator.visitor b) := by
  cases A <;> cases B <;>
    simp only [ShapePtr.accept, Circle.accept, Square.accept, BoundingBoxCalculator.visitor,
      BoundingBoxCalculator.visitShapeCircle, BoundingBoxCalculator.visitShapeSquare,
      BoundingBoxCalculator.mk.injEq] <;>
    exact ⟨stdMax_right_comm _ _ _, stdMin_right_comm _ _ _, stdMax_right_comm _ _ _,
      stdMin_right_comm _ _ _⟩

theorem boundingBox_visitAll_cons_of_mem (A : ShapePtr) (l : List ShapePtr) (h : A ∈ l) :
    ∀ b : BoundingBoxCalculator, b.visitAll (A :: l) = b.visitAll l := by
  induction l with
  | nil => simp at h
  | cons B t ih =>
    intro b
    rcases List.mem_cons.mp h with hAB | hAt
    · subst hAB
      show BoundingBoxCalculator.visitAll
          (A.accept BoundingBoxCalculator.visitor (A.accept BoundingBoxCalculator.visitor b)) t
        = BoundingBoxCalculator.visitAll (A.accept BoundingBoxCalculator.visitor b) t
      rw [boundingBox_accept_idem]
    · have e := ih hAt (B.accept BoundingBoxCalculator.visitor b)
      show BoundingBoxCalculator.visitAll
          (B.accept BoundingBoxCalculator.visitor (A.accept BoundingBoxCalculator.visitor b)) t
        = BoundingBoxCalculator.visitAll (B.accept BoundingBoxCalculator.visitor b) t
      rw [boundingBox_accept_comm]
      exact e

theorem boundingBox_visitAll_dedup (l : List ShapePtr) :
    ∀ b : BoundingBoxCalculator, b.visitAll l.dedup = b.visitAll l := by
  induction l with
  | nil => intro b; rfl
  | cons A t ih =>
    intro b
    by_cases h : A ∈ t
    · rw [List.dedup_cons_of_mem h, ih, boundingBox_visitAll_cons_of_mem A t h]
    · rw [List.dedup_cons_of_not_mem h]
      exact ih (A.accept BoundingBoxCalculator.visitor b)

theorem boundingBox_visitAll_perm {l1 l2 : List ShapePtr} (h : l1.Perm l2) :
    ∀ b : BoundingBoxCalculator, b.visitAll l1 = b.visitAll l2 := by
  induction h with
  | nil => intro b; rfl
  | cons A _ ih => intro b; exact ih (A.accept BoundingBoxCalculator.visitor b)
  | swap A B l =>
    intro b
    show BoundingBoxCalculator.visitAll
        (A.accept BoundingBoxCalculator.visitor (B.accept BoundingBoxCalculator.visitor b)) l
      = BoundingBoxCalculator.visitAll
        (B.accept BoundingBoxCalculator.visitor (A.accept BoundingBoxCalculator.visitor b)) l
    rw [boundingBox_accept_comm]
  | trans _ _ ih1 ih2 => intro b; rw [ih1, ih2]

/-- C13. `BoundingBoxCalculator` visits are idempotent and commute: for every prior state and
every shape `A` (circle or square), visiting `A` twice leaves the same state as visiting `A` once;
for every prior state and every two shapes `A` and `B`, visiting `A` then `B` leaves the same four
extrema as visiting `B` then `A`; and two sequences that contain the same shapes, in any order and
with any repetitions, leave the same box from the same starting state. -/
theorem boundingBox_idempotent_commutative (b : BoundingBoxCalculator) (A B : ShapePtr)
    (l1 l2 : List ShapePtr) :
    b.visitAll [A, A] = b.visitAll [A] ∧
    b.visitAll [A, B] = b.visitAll [B, A] ∧
    (b.visitAll [A, B]).getLeft = (b.visitAll [B, A]).getLeft ∧
    (b.visitAll [A, B]).getRight = (b.visitAll [B, A]).getRight ∧
    (b.visitAll [A, B]).getTop = (b.visitAll [B, A]).getTop ∧
    (b.visitAll [A, B]).getBottom = (b.visitAll [B, A]).getBottom ∧
    ((∀ s, s ∈ l1 ↔ s ∈ l2) → b.visitAll l1 = b.visitAll l2) := by
  have hc : b.visitAll [A, B] = b.visitAll [B, A] := boundingBox_accept_comm b A B
  refine ⟨boundingBox_accept_idem b A, hc, by rw [hc], by rw [hc], by rw [hc], by rw [hc], ?_⟩
  intro h
  have hp : l1.dedup.Perm l2.dedup :=
    (List.perm_ext_iff_of_nodup (List.nodup_dedup l1) (List.nodup_dedup l2)).mpr
      (fun s => by rw [List.mem_dedup, List.mem_dedup]; exact h s)
  rw [← boundingBox_visitAll_dedup l1, ← boundingBox_visitAll_dedup l2]
  exact boundingBox_visitAll_perm hp b

/-- Witness of `boundingBox_idempotent_commutative`: from the box `(0, 0, 0, 0)`, the circle
`(10, 10, 1)` and the square of centre `(-3, 4)`, width `4` and height `2`, visited as
`circle, square, circle` and as `square, circle`. -/
theorem boundingBox_idempotent_commutative_witness :
    (∀ s, s ∈ [ShapePtr.circle (Circle.ctor (.fin 10) (.fin 10) (.fin 1)),
                ShapePtr.square (Square.ctor (.fin (-3)) (.fin 4) (.fin 4) (.fin 2)),
                ShapePtr.circle (Circle.ctor (.fin 10) (.fin 10) (.fin 1))]
          ↔ s ∈ [ShapePtr.square (Square.ctor (.fin (-3)) (.fin 4) (.fin 4) (.fin 2)),
                ShapePtr.circle (Circle.ctor (.fin 10) (.fin 10) (.fin 1))]) ∧
    (BoundingBoxCalculator.ctor (.fin 0) (.fin 0) (.fin 0) (.fin 0)).visitAll
        [ShapePtr.circle (Circle.ctor (.fin 10) (.fin 10) (.fin 1)),
         ShapePtr.square (Square.ctor (.fin (-3)) (.fin 4) (.fin 4) (.fin 2)),
         ShapePtr.circle (Circle.ctor (.fin 10) (.fin 10) (.fin 1))]
      = (BoundingBoxCalculator.ctor (.fin 0) (.fin 0) (.fin 0) (.fin 0)).visitAll
        [ShapePtr.square (Square.ctor (.fin (-3)) (.fin 4) (.fin 4) (.fin 2)),
         ShapePtr.circle (Circle.ctor (.fin 10) (.fin 10) (.fin 1))] :=
  ⟨by intro s; simp only [List.mem_cons, List.mem_singleton, List.not_mem_nil]; tauto,
   (boundingBox_idempotent_commutative
      (BoundingBoxCalculator.ctor (.fin 0) (.fin 0) (.fin 0) (.fin 0))
      (.circle (Circle.ctor (.fin 10) (.fin 10) (.fin 1)))
      (.square (Square.ctor (.fin (-3)) (.fin 4) (.fin 4) (.fin 2)))
      [ShapePtr.circle (Circle.ctor (.fin 10) (.fin 10) (.fin 1)),
       ShapePtr.square (Square.ctor (.fin (-3)) (.fin 4) (.fin 4) (.fin 2)),
       ShapePtr.circle (Circle.ctor (.fin 10) (.fin 10) (.fin 1))]
      [ShapePtr.square (Square.ctor (.fin (-3)) (.fin 4) (.fin 4) (.fin 2)),
       ShapePtr.circle (Circle.ctor (.fin 10) (.fin 10) (.fin 1))]).2.2.2.2.2.2
     (by intro s; simp only [List.mem_cons, List.mem_singleton, List.not_mem_nil]; tauto)⟩

/-! ## `BoundingBoxCalculator`: well-formed boxes -/

theorem isNum_of_le {a b : FP} (h : FP.le a b = true) : a.isNum = true ∧ b.isNum = true := by
  rcases a with _ | (_ | _) | p <;> rcases b with _ | (_ | _) | q <;>
    first | exact ⟨rfl, rfl⟩ | simp [FP.le] at h

theorem le_posInf (v : FP) (h : v.isNum = true) : FP.le v (.inf false) = true := by
  rcases v with _ | (_ | _) | p <;> first | rfl | simp [FP.isNum] at h

theorem negInf_le (v : FP) (h : v.isNum = true) : FP.le (.inf true) v = true := by
  rcases v with _ | (_ | _) | p <;> first | rfl | simp [FP.isNum] at h

theorem round32_mono {q1 q2 : ℚ} (h : q1 ≤ q2) : FP.le (round32 q1) (round32 q2) = true :=
  roundTo_mono 24 (-126) 127 (by norm_num) h

theorem round32_zero : round32 0 = .fin 0 := roundTo_zero 24 (-126) 127

/-- Half of a non-negative `float` is non-negative. -/
theorem div32_two_nonneg (w : FP) (h : FP.le (.fin 0) w = true) :
    FP.le (.fin 0) (div32 w two) = true := by
  rcases w with _ | (_ | _) | a
  · simp [FP.le] at h
  · rfl
  · simp [FP.le] at h
  · simp only [FP.le, decide_eq_true_eq] at h
    simp only [div32, two, FP.div]
    rw [if_neg (by norm_num)]
    have := round32_mono (div_nonneg h (by norm_num : (0 : ℚ) ≤ 2))
    rw [round32_zero] at this
    exact this

/-- For a finite `x` and non-negative `u` and `v`, the `float` difference `x - u` is at most the
`float` sum `x + v`. -/
theorem sub32_le_add32 (x : ℚ) (u v : FP) (hu : FP.le (.fin 0) u = true)
    (hv : FP.le (.fin 0) v = true) : FP.le (sub32 (.fin x) u) (add32 (.fin x) v) = true := by
  have nv := (isNum_of_le hv).2
  have nu := (isNum_of_le hu).2
  rcases u with _ | (_ | _) | a
  · simp [FP.le] at hu
  · exact negInf_le _ (isNum_add32_fin x v nv)
  · simp [FP.le] at hu
  · rcases v with _ | (_ | _) | c
    · simp [FP.le] at hv
    · exact le_posInf _ (isNum_sub32_fin x (.fin a) rfl)
    · simp [FP.le] at hv
    · simp only [FP.le, decide_eq_true_eq] at hu hv
      show FP.le (round32 (x + -a)) (round32 (x + c)) = true
      exact round32_mono (by linarith)

theorem wellFormed_of_le (b : BoundingBoxCalculator) (vb vl vr vt : FP)
    (hb : b.bottom.isNum = true) (hl : b.left.isNum = true) (hr : b.right.isNum = true)
    (ht : b.top.isNum = true) (h1 : FP.le vl vr = true) (h2 : FP.le vt vb = true) :
    BoundingBoxCalculator.wellFormed
      { bottom := stdMax b.bottom vb, left := stdMin b.left vl,
        right := stdMax b.right vr, top := stdMin b.top vt } = true := by
  have n1 := isNum_of_le h1
  have n2 := isNum_of_le h2
  simp only [BoundingBoxCalculator.wellFormed, BoundingBoxCalculator.getLeft,
    BoundingBoxCalculator.getRight, BoundingBoxCalculator.getTop,
    BoundingBoxCalculator.getBottom, Bool.and_eq_true]
  exact ⟨le_trans_fp _ _ _ (stdMin_le_right _ _ hl n1.1)
      (le_trans_fp _ _ _ h1 (le_stdMax_right _ _ hr n1.2)),
    le_trans_fp _ _ _ (stdMin_le_right _ _ ht n2.1)
      (le_trans_fp _ _ _ h2 (le_stdMax_right _ _ hb n2.2))⟩

theorem wellFormed_preserved (b : BoundingBoxCalculator) (vb vl vr vt : FP)
    (h : b.wellFormed = true) :
    BoundingBoxCalculator.wellFormed
      { bottom := stdMax b.bottom vb, left := stdMin b.left vl,
        right := stdMax b.right vr, top := stdMin b.top vt } = true := by
  simp only [BoundingBoxCalculator.wellFormed, BoundingBoxCalculator.getLeft,
    BoundingBoxCalculator.getRight, BoundingBoxCalculator.getTop,
    BoundingBoxCalculator.getBottom, Bool.and_eq_true] at h ⊢
  have n1 := isNum_of_le h.1
  have n2 := isNum_of_le h.2
  exact ⟨le_trans_fp _ _ _ (stdMin_le_left _ _ n1.1)
      (le_trans_fp _ _ _ h.1 (le_stdMax_left _ _ n1.2)),
    le_trans_fp _ _ _ (stdMin_le_left _ _ n2.1)
      (le_trans_fp _ _ _ h.2 (le_stdMax_left _ _ n2.2))⟩

/-- C14, counterexample.  From the prior state whose `left` is `nan` (a `float`) and whose other
members are `0`, the visit of the circle `(0, 0, 1)` leaves `left = nan`, and
`getLeft() <= getRight()` is false.  From the prior state `left = 5`, `right = 0` the visit of a
circle of radius `1` whose centre has `x = nan` leaves `left = 5 > right = 0`. -/
theorem boundingBox_not_well_formed :
    FP.nan.isFloat = true ∧ FP.le (.fin 0) (.fin 1) = true ∧
    ((BoundingBoxCalculator.ctor (.fin 0) .nan (.fin 0) (.fin 0)).visitShapeCircle
        (Circle.ctor (.fin 0) (.fin 0) (.fin 1))).getLeft = .nan ∧
    FP.le
      ((BoundingBoxCalculator.ctor (.fin 0) .nan (.fin 0) (.fin 0)).visitShapeCircle
        (Circle.ctor (.fin 0) (.fin 0) (.fin 1))).getLeft
      ((BoundingBoxCalculator.ctor (.fin 0) .nan (.fin 0) (.fin 0)).visitShapeCircle
        (Circle.ctor (.fin 0) (.fin 0) (.fin 1))).getRight = false ∧
    ((BoundingBoxCalculator.ctor (.fin 0) .nan (.fin 0) (.fin 0)).visitShapeCircle
        (Circle.ctor (.fin 0) (.fin 0) (.fin 1))).wellFormed = false ∧
    ((BoundingBoxCalculator.ctor (.fin 0) (.fin 5) (.fin 0) (.fin 0)).visitShapeCircle
        (Circle.ctor .nan (.fin 0) (.fin 1))).getLeft = .fin 5 ∧
    ((BoundingBoxCalculator.ctor (.fin 0) (.fin 5) (.fin 0) (.fin 0)).visitShapeCircle
        (Circle.ctor .nan (.fin 0) (.fin 1))).getRight = .fin 0 ∧
    ((BoundingBoxCalculator.ctor (.fin 0) (.fin 5) (.fin 0) (.fin 0)).visitShapeCircle
        (Circle.ctor .nan (.fin 0) (.fin 1))).wellFormed = false := by
  refine ⟨?_, ?_, ?_, ?_, ?_, ?_, ?_, ?_⟩ <;> decide!

/-- C14, amended.  Whatever the prior state, provided none of its members is `nan`, after visiting
any circle with finite centre and radius `>= 0`, or any square with finite centre, width `>= 0`
and height `>= 0`, the box is well-formed: `getLeft() <= getRight()` and
`getTop() <= getBottom()`.  Once well-formed it stays well-formed under every later visit of any
shape, whatever its members. -/
theorem boundingBox_well_formed (b : BoundingBoxCalculator) (x y : ℚ) (r w h : FP)
    (c : Circle) (s : Square)
    (hbottom : b.bottom.isNum = true) (hleft : b.left.isNum = true)
    (hright : b.right.isNum = true) (htop : b.top.isNum = true)
    (hr : FP.le (.fin 0) r = true) (hw : FP.le (.fin 0) w = true)
    (hh : FP.le (.fin 0) h = true) :
    (FP.le (b.visitShapeCircle (Circle.ctor (.fin x) (.fin y) r)).getLeft
        (b.visitShapeCircle (Circle.ctor (.fin x) (.fin y) r)).getRight = true ∧
     FP.le (b.visitShapeCircle (Circle.ctor (.fin x) (.fin y) r)).getTop
        (b.visitShapeCircle (Circle.ctor (.fin x) (.fin y) r)).getBottom = true) ∧
    (FP.le (b.visitShapeSquare (Square.ctor (.fin x) (.fin y) w h)).getLeft
        (b.visitShapeSquare (Square.ctor (.fin x) (.fin y) w h)).getRight = true ∧
     FP.le (b.visitShapeSquare (Square.ctor (.fin x) (.fin y) w h)).getTop
        (b.visitShapeSquare (Square.ctor (.fin x) (.fin y) w h)).getBottom = true) ∧
    (∀ b0 : BoundingBoxCalculator, b0.wellFormed = true →
      (b0.visitShapeCircle c).wellFormed = true ∧ (b0.visitShapeSquare s).wellFormed = true) := by
  have hc := wellFormed_of_le b (add32 (.fin y) r) (sub32 (.fin x) r) (add32 (.fin x) r)
    (sub32 (.fin y) r) hbottom hleft hright htop (sub32_le_add32 x r r hr hr)
    (sub32_le_add32 y r r hr hr)
  have hs := wellFormed_of_le b (add32 (.fin y) (div32 w two)) (sub32 (.fin x) (div32 h two))
    (add32 (.fin x) (div32 w two)) (sub32 (.fin y) (div32 h two)) hbottom hleft hright htop
    (sub32_le_add32 x _ _ (div32_two_nonneg h hh) (div32_two_nonneg w hw))
    (sub32_le_add32 y _ _ (div32_two_nonneg h hh) (div32_two_nonneg w hw))
  simp only [BoundingBoxCalculator.wellFormed, Bool.and_eq_true] at hc hs
  refine ⟨hc, hs, ?_⟩
  intro b0 h0
  exact ⟨wellFormed_preserved b0 _ _ _ _ h0, wellFormed_preserved b0 _ _ _ _ h0⟩

/-- Witness of `boundingBox_well_formed`: the prior state `bottom = -2`, `left = 7`, `right = 3`,
`top = +inf` (not well-formed), the circle `(10, 10, 1)` and the square of centre `(10, 10)`,
width `4` and height `2`; then a circle of radius `-1` and a square with `nan` width visited from
the well-formed box `(1, 0, 1, 0)`. -/
theorem boundingBox_well_formed_witness :
    ((BoundingBoxCalculator.ctor (.fin (-2)) (.fin 7) (.fin 3) (.inf false)).bottom.isNum = true ∧
     (BoundingBoxCalculator.ctor (.fin (-2)) (.fin 7) (.fin 3) (.inf false)).left.isNum = true ∧
     (BoundingBoxCalculator.ctor (.fin (-2)) (.fin 7) (.fin 3) (.inf false)).right.isNum = true ∧
     (BoundingBoxCalculator.ctor (.fin (-2)) (.fin 7) (.fin 3) (.inf false)).top.isNum = true ∧
     FP.le (.fin 0) (.fin 1) = true ∧ FP.le (.fin 0) (.fin 4) = true ∧
     FP.le (.fin 0) (.fin 2) = true ∧
     (BoundingBoxCalculator.ctor (.fin 1) (.fin 0) (.fin 1) (.fin 0)).wellFormed = true) ∧
    FP.le ((BoundingBoxCalculator.ctor (.fin (-2)) (.fin 7) (.fin 3) (.inf false)).visitShapeCircle
          (Circle.ctor (.fin 10) (.fin 10) (.fin 1))).getLeft
      ((BoundingBoxCalculator.ctor (.fin (-2)) (.fin 7) (.fin 3) (.inf false)).visitShapeCircle
          (Circle.ctor (.fin 10) (.fin 10) (.fin 1))).getRight = true ∧
    ((BoundingBoxCalculator.ctor (.fin 1) (.fin 0) (.fin 1) (.fin 0)).visitShapeCircle
        (Circle.ctor (.fin 0) (.fin 0) (.fin (-1)))).wellFormed = true ∧
    ((BoundingBoxCalculator.ctor (.fin 1) (.fin 0) (.fin 1) (.fin 0)).visitShapeSquare
        (Square.ctor (.fin 0) (.fin 0) .nan (.fin (-1)))).wellFormed = true :=
  ⟨⟨rfl, rfl, rfl, rfl, by decide!, by decide!, by decide!, by decide!⟩,
   (boundingBox_well_formed
      (BoundingBoxCalculator.ctor (.fin (-2)) (.fin 7) (.fin 3) (.inf false)) 10 10
      (.fin 1) (.fin 4) (.fin 2) (Circle.ctor (.fin 0) (.fin 0) (.fin (-1)))
      (Square.ctor (.fin 0) (.fin 0) .nan (.fin (-1)))
      rfl rfl rfl rfl (by decide!) (by decide!) (by decide!)).1.1,
   ((boundingBox_well_formed
      (BoundingBoxCalculator.ctor (.fin (-2)) (.fin 7) (.fin 3) (.inf false)) 10 10
      (.fin 1) (.fin 4) (.fin 2) (Circle.ctor (.fin 0) (.fin 0) (.fin (-1)))
      (Square.ctor (.fin 0) (.fin 0) .nan (.fin (-1)))
      rfl rfl rfl rfl (by decide!) (by decide!) (by decide!)).2.2
      (BoundingBoxCalculator.ctor (.fin 1) (.fin 0) (.fin 1) (.fin 0)) (by decide!)).1,
   ((boundingBox_well_formed
      (BoundingBoxCalculator.ctor (.fin (-2)) (.fin 7) (.fin 3) (.inf false)) 10 10
      (.fin 1) (.fin 4) (.fin 2) (Circle.ctor (.fin 0) (.fin 0) (.fin (-1)))
      (Square.ctor (.fin 0) (.fin 0) .nan (.fin (-1)))
      rfl rfl rfl rfl (by decide!) (by decide!) (by decide!)).2.2
      (BoundingBoxCalculator.ctor (.fin 1) (.fin 0) (.fin 1) (.fin 0)) (by decide!)).2⟩

/-! ## `BoundingBoxCalculator`: the Square handler against the expected update -/

theorem visitShapeSquare_eq_expected_iff (b : BoundingBoxCalculator) (s : Square) :
    b.visitShapeSquare s = b.visitShapeSquareExpected s ↔
      (stdMax b.bottom (add32 s.getY (div32 s.getWidth two))
          = stdMax b.bottom (add32 s.getY (div32 s.getHeight two)) ∧
       stdMin b.left (sub32 s.getX (div32 s.getHeight two))
          = stdMin b.left (sub32 s.getX (div32 s.getWidth two))) := by
  simp only [BoundingBoxCalculator.visitShapeSquare,
    BoundingBoxCalculator.visitShapeSquareExpected, BoundingBoxCalculator.mk.injEq,
    and_true, true_and]

/-- C15, counterexample.  The square of centre `(2^30, 2^30)`, width `1` and height `2` has
`float` members and `width != height`, yet `y + w/2` and `y + h/2` both round to `2^30`, and so
do `x - h/2` and `x - w/2`: the two updates give the same box on every prior state.  The same
holds for the square of centre `(0, 0)`, width `2^-149` (the smallest positive `float`) and
height `0`, whose two halves are both `0`. -/
theorem square_updates_agree_despite_different_sides :
    ((round32 (2 ^ 30)).isFloat = true ∧ (FP.fin 1).isFloat = true ∧ (FP.fin 2).isFloat = true ∧
      (FP.fin 1 : FP) ≠ .fin 2 ∧
      add32 (.fin (2 ^ 30)) (div32 (.fin 1) two) = .fin (2 ^ 30) ∧
      add32 (.fin (2 ^ 30)) (div32 (.fin 2) two) = .fin (2 ^ 30) ∧
      sub32 (.fin (2 ^ 30)) (div32 (.fin 1) two) = .fin (2 ^ 30) ∧
      sub32 (.fin (2 ^ 30)) (div32 (.fin 2) two) = .fin (2 ^ 30)) ∧
    (¬ ∃ b : BoundingBoxCalculator,
      b.visitShapeSquare (Square.ctor (.fin (2 ^ 30)) (.fin (2 ^ 30)) (.fin 1) (.fin 2))
        ≠ b.visitShapeSquareExpected
            (Square.ctor (.fin (2 ^ 30)) (.fin (2 ^ 30)) (.fin 1) (.fin 2))) ∧
    ((FP.fin (1 / 2 ^ 149)).isFloat = true ∧ (FP.fin (1 / 2 ^ 149) : FP) ≠ .fin 0 ∧
      div32 (.fin (1 / 2 ^ 149)) two = .fin 0 ∧ div32 (.fin 0) two = .fin 0) ∧
    (¬ ∃ b : BoundingBoxCalculator,
      b.visitShapeSquare (Square.ctor (.fin 0) (.fin 0) (.fin (1 / 2 ^ 149)) (.fin 0))
        ≠ b.visitShapeSquareExpected
            (Square.ctor (.fin 0) (.fin 0) (.fin (1 / 2 ^ 149)) (.fin 0))) := by
  have h1 : add32 (.fin (2 ^ 30)) (div32 (.fin 1) two) = .fin (2 ^ 30) := by decide!
  have h2 : add32 (.fin (2 ^ 30)) (div32 (.fin 2) two) = .fin (2 ^ 30) := by decide!
  have h3 : sub32 (.fin (2 ^ 30)) (div32 (.fin 1) two) = .fin (2 ^ 30) := by decide!
  have h4 : sub32 (.fin (2 ^ 30)) (div32 (.fin 2) two) = .fin (2 ^ 30) := by decide!
  have h5 : div32 (.fin (1 / 2 ^ 149)) two = .fin 0 := by decide!
  have h6 : div32 (.fin 0) two = .fin 0 := by decide!
  refine ⟨⟨by decide!, by decide!, by decide!, by decide!, h1, h2, h3, h4⟩, ?_,
    ⟨by decide!, by decide!, h5, h6⟩, ?_⟩
  · rintro ⟨b, hb⟩
    apply hb
    rw [visitShapeSquare_eq_expected_iff]
    show stdMax b.bottom (add32 (.fin (2 ^ 30)) (div32 (.fin 1) two))
        = stdMax b.bottom (add32 (.fin (2 ^ 30)) (div32 (.fin 2) two)) ∧
      stdMin b.left (sub32 (.fin (2 ^ 30)) (div32 (.fin 2) two))
        = stdMin b.left (sub32 (.fin (2 ^ 30)) (div32 (.fin 1) two))
    rw [h1, h2, h3, h4]
    exact ⟨rfl, rfl⟩
  · rintro ⟨b, hb⟩
    apply hb
    rw [visitShapeSquare_eq_expected_iff]
    show stdMax b.bottom (add32 (.fin 0) (div32 (.fin (1 / 2 ^ 149)) two))
        = stdMax b.bottom (add32 (.fin 0) (div32 (.fin 0) two)) ∧
      stdMin b.left (sub32 (.fin 0) (div32 (.fin 0) two))
        = stdMin b.left (sub32 (.fin 0) (div32 (.fin (1 / 2 ^ 149)) two))
    rw [h5, h6]
    exact ⟨rfl, rfl⟩

/-- C15, amended.  The Square path agrees with the geometrically expected update for every prior
state whenever `width = height`.  For a square with finite members there is a prior state on
which the two updates give different boxes exactly when the `float` sums `y + w/2` and `y + h/2`
differ or the `float` differences `x - h/2` and `x - w/2` differ; the empty box
(`left = top = +inf`, `right = bottom = -inf`) is then such a state. -/
theorem square_update_against_expected (b : BoundingBoxCalculator) (s : Square)
    (x y w h : ℚ) :
    (s.getWidth = s.getHeight → b.visitShapeSquare s = b.visitShapeSquareExpected s) ∧
    ((∃ b0 : BoundingBoxCalculator,
        b0.visitShapeSquare (Square.ctor (.fin x) (.fin y) (.fin w) (.fin h))
          ≠ b0.visitShapeSquareExpected (Square.ctor (.fin x) (.fin y) (.fin w) (.fin h))) ↔
      (add32 (.fin y) (div32 (.fin w) two) ≠ add32 (.fin y) (div32 (.fin h) two) ∨
       sub32 (.fin x) (div32 (.fin h) two) ≠ sub32 (.fin x) (div32 (.fin w) two))) ∧
    ((add32 (.fin y) (div32 (.fin w) two) ≠ add32 (.fin y) (div32 (.fin h) two) ∨
       sub32 (.fin x) (div32 (.fin h) two) ≠ sub32 (.fin x) (div32 (.fin w) two)) →
      (BoundingBoxCalculator.ctor (.inf true) (.inf false) (.inf true) (.inf false)).visitShapeSquare
          (Square.ctor (.fin x) (.fin y) (.fin w) (.fin h))
        ≠ (BoundingBoxCalculator.ctor (.inf true) (.inf false) (.inf true)
            (.inf false)).visitShapeSquareExpected
          (Square.ctor (.fin x) (.fin y) (.fin w) (.fin h))) := by
  have key : (add32 (.fin y) (div32 (.fin w) two) ≠ add32 (.fin y) (div32 (.fin h) two) ∨
       sub32 (.fin x) (div32 (.fin h) two) ≠ sub32 (.fin x) (div32 (.fin w) two)) →
      (BoundingBoxCalculator.ctor (.inf true) (.inf false) (.inf true) (.inf false)).visitShapeSquare
          (Square.ctor (.fin x) (.fin y) (.fin w) (.fin h))
        ≠ (BoundingBoxCalculator.ctor (.inf true) (.inf false) (.inf true)
            (.inf false)).visitShapeSquareExpected
          (Square.ctor (.fin x) (.fin y) (.fin w) (.fin h)) := by
    intro hd heq
    rw [visitShapeSquare_eq_expected_iff] at heq
    have e1 : stdMax (.inf true) (add32 (.fin y) (div32 (.fin w) two))
        = stdMax (.inf true) (add32 (.fin y) (div32 (.fin h) two)) := heq.1
    have e2 : stdMin (.inf false) (sub32 (.fin x) (div32 (.fin h) two))
        = stdMin (.inf false) (sub32 (.fin x) (div32 (.fin w) two)) := heq.2
    rw [stdMax_negInf _ (isNum_add32_fin y _ (isNum_div32_two w)),
      stdMax_negInf _ (isNum_add32_fin y _ (isNum_div32_two h))] at e1
    rw [stdMin_posInf _ (isNum_sub32_fin x _ (isNum_div32_two h)),
      stdMin_posInf _ (isNum_sub32_fin x _ (isNum_div32_two w))] at e2
    rcases hd with hd | hd
    · exact hd e1
    · exact hd e2
  refine ⟨?_, ⟨?_, ?_⟩, key⟩
  · intro hwh
    rw [visitShapeSquare_eq_expected_iff, hwh]
    exact ⟨rfl, rfl⟩
  · rintro ⟨b0, hb0⟩
    by_contra hcon
    rw [not_or, not_not, not_not] at hcon
    apply hb0
    rw [visitShapeSquare_eq_expected_iff]
    show stdMax b0.bottom (add32 (.fin y) (div32 (.fin w) two))
        = stdMax b0.bottom (add32 (.fin y) (div32 (.fin h) two)) ∧
      stdMin b0.left (sub32 (.fin x) (div32 (.fin h) two))
        = stdMin b0.left (sub32 (.fin x) (div32 (.fin w) two))
    rw [hcon.1, hcon.2]
    exact ⟨rfl, rfl⟩
  · intro hd
    exact ⟨_, key hd⟩

/-- Witness of `square_update_against_expected`: a square with `width = height = 2` on the prior
box `(0, 0, 0, 0)`, and the square of centre `(0, 0)`, width `4` and height `2`, whose sums
`y + w/2 = 2` and `y + h/2 = 1` differ. -/
theorem square_update_against_expected_witness :
    ((Square.ctor (.fin 10) (.fin 10) (.fin 2) (.fin 2)).getWidth
        = (Square.ctor (.fin 10) (.fin 10) (.fin 2) (.fin 2)).getHeight ∧
     (add32 (.fin 0) (div32 (.fin 4) two) ≠ add32 (.fin 0) (div32 (.fin 2) two) ∨
       sub32 (.fin 0) (div32 (.fin 2) two) ≠ sub32 (.fin 0) (div32 (.fin 4) two))) ∧
    (BoundingBoxCalculator.ctor (.fin 0) (.fin 0) (.fin 0) (.fin 0)).visitShapeSquare
        (Square.ctor (.fin 10) (.fin 10) (.fin 2) (.fin 2))
      = (BoundingBoxCalculator.ctor (.fin 0) (.fin 0) (.fin 0) (.fin 0)).visitShapeSquareExpected
        (Square.ctor (.fin 10) (.fin 10) (.fin 2) (.fin 2)) ∧
    (BoundingBoxCalculator.ctor (.inf true) (.inf false) (.inf true) (.inf false)).visitShapeSquare
        (Square.ctor (.fin 0) (.fin 0) (.fin 4) (.fin 2))
      ≠ (BoundingBoxCalculator.ctor (.inf true) (.inf false) (.inf true)
          (.inf false)).visitShapeSquareExpected
        (Square.ctor (.fin 0) (.fin 0) (.fin 4) (.fin 2)) :=
  ⟨⟨rfl, Or.inl (by decide!)⟩,
   (square_update_against_expected
      (BoundingBoxCalculator.ctor (.fin 0) (.fin 0) (.fin 0) (.fin 0))
      (Square.ctor (.fin 10) (.fin 10) (.fin 2) (.fin 2)) 0 0 4 2).1 rfl,
   (square_update_against_expected
      (BoundingBoxCalculator.ctor (.fin 0) (.fin 0) (.fin 0) (.fin 0))
      (Square.ctor (.fin 10) (.fin 10) (.fin 2) (.fin 2)) 0 0 4 2).2.2 (Or.inl (by decide!))⟩

end VisitorPattern
